import Mathlib

/-!
# NachOS MP3 scheduler: a shallow embedding of `threads/scheduler.cc`

The multi-level feedback queue (`MLFQ`) and the policy functions of the
scheduler are embedded as pure functions over explicit state.

Conventions of the embedding:

* A `Thread *` is embedded as the record of the fields the scheduler reads or
  writes.  Mutation through a pointer that is held in a queue becomes a map
  over that queue.
* `int` fields (`priority`, the ID, tick stamps) are mathematical integers.
  Every `int` expression of the embedded code is evaluated on the values the
  kernel produces (IDs from a counter, priorities in `[0,149]`, tick stamps),
  where no overflow occurs.
* `double` values are rationals and every `double` operation rounds its exact
  result (IEEE binary64 round-to-nearest-even); `static_cast<int>` is
  truncation toward zero into the 32-bit range; the narrowing to `float` is
  IEEE binary32 round-to-nearest-even.
* `DEBUG(...)` statements only log and are not embedded.
* `kernel->stats->totalTicks` is passed explicitly to the functions reading it.
* A failed `ASSERT` stops the kernel: a routine with assertions returns an
  `Outcome`, which is either the value returned with the state reached, or the
  failed assertion with the state at that point.
* Two thread records with the same ID stand for the same thread object.

The last part embeds one pass of `ConsumerController::process` of
`consumer_controller.hpp`.
-/

namespace NachOS

/-! ## Data model -/

/-- Modelled from the spec: the thread status of `thread.h` (not part of the
sources at hand); section 3 of the specification lists exactly these values. -/
inductive ThreadStatus where
  | READY
  | RUNNING
  | BLOCKED
  | FINISHED
  deriving DecidableEq, Repr

/-- Modelled from the spec: the fields of `class Thread` (`thread.h` is not
part of the sources at hand) that `scheduler.cc` reads or writes. -/
structure Thread where
  ID : Int
  status : ThreadStatus
  priority : Int
  apxBurstTime : ℚ
  CPUBurstTime : ℚ
  cacheBurstTime : Int
  beReadyTime : Int
  deriving DecidableEq

/-- Modelled from the spec: `Thread::getLevel` (`thread.h` is not part of the
sources at hand): 1 if priority ≥ 100, 2 if 50 ≤ priority < 100, 3 otherwise. -/
def Thread.getLevel (t : Thread) : Int :=
  if t.priority ≥ 100 then 1 else if t.priority ≥ 50 then 2 else 3

/-- Modelled from the spec: `SortedList<T>::Insert` (`lib/list.h` is not part
of the sources at hand).  The item is put in front of the first element it
compares smaller than (`compare(item, e) < 0`), at the end when there is none,
which keeps a list sorted by `compare` sorted. -/
def SortedList.Insert {α : Type} (compare : α → α → Int) (item : α) : List α → List α
  | [] => [item]
  | e :: rest =>
    if compare item e < 0 then item :: e :: rest
    else e :: SortedList.Insert compare item rest

/-- Modelled from the spec: `List<T>::Append` (`lib/list.h` is not part of the
sources at hand): the item is put at the end of the list. -/
def List.Append {α : Type} (item : α) (l : List α) : List α :=
  l ++ [item]

/-- Modelled from the spec: `List<T>::RemoveFront` (`lib/list.h` is not part of
the sources at hand): the first element and the rest.  The queue only calls it
on a non-empty list. -/
def List.RemoveFront {α : Type} : List α → Option α × List α
  | [] => (none, [])
  | e :: rest => (some e, rest)

/-- The three sub-queues owned by `class MLFQ`. -/
structure MLFQ where
  L1 : List Thread
  L2 : List Thread
  L3 : List Thread
  deriving DecidableEq

/-- The queue built by `MLFQ::MLFQ()`: three empty lists. -/
def MLFQ.new : MLFQ :=
  { L1 := [], L2 := [], L3 := [] }

/-! ## Comparators -/

/-- Rounding of a rational to the nearest integer, halves to the even one. -/
def roundHalfEven (x : ℚ) : Int :=
  if x - ⌊x⌋ < 1 / 2 then ⌊x⌋
  else if 1 / 2 < x - ⌊x⌋ then ⌊x⌋ + 1
  else if ⌊x⌋ % 2 = 0 then ⌊x⌋ else ⌊x⌋ + 1

/-- The value of a `double` expression whose exact value is `d`: IEEE binary64
round-to-nearest-even (53 significant bits, least exponent -1022).  A result
of magnitude `2 ^ 1024` stands for the infinity of that sign. -/
def toDouble (d : ℚ) : ℚ :=
  if d = 0 then 0
  else
    let e : Int := max (Int.log 2 |d|) (-1022)
    let ulp : ℚ := (2 : ℚ) ^ (e - 52)
    let m : ℚ := min ((roundHalfEven (|d| / ulp) : ℚ) * ulp) ((2 : ℚ) ^ (1024 : Int))
    if 0 ≤ d then m else -m

/-- The conversion `static_cast<int>(d)` of a `double` to the 32-bit `int`:
truncation toward zero; a value whose truncation is outside the range of
`int` gives `INT_MIN`, in either direction. -/
def truncToInt (d : ℚ) : Int :=
  if -(2 : Int) ^ 31 ≤ (if 0 ≤ d then ⌊d⌋ else ⌈d⌉) ∧ (if 0 ≤ d then ⌊d⌋ else ⌈d⌉) < (2 : Int) ^ 31
  then (if 0 ≤ d then ⌊d⌋ else ⌈d⌉)
  else -(2 : Int) ^ 31

/-- The function `getRemainTime` of `scheduler.cc`; every operation of the
`double` expression rounds. -/
def getRemainTime (totalTicks : Int) (t : Thread) : ℚ :=
  if t.status = ThreadStatus.RUNNING then
    toDouble (t.apxBurstTime
      - toDouble (toDouble (t.CPUBurstTime + (totalTicks : ℚ)) - (t.cacheBurstTime : ℚ)))
  else
    toDouble (t.apxBurstTime - t.CPUBurstTime)

/-- The function `cmpRemainTime` of `scheduler.cc`. -/
def cmpRemainTime (totalTicks : Int) (t1 t2 : Thread) : Int :=
  let time1 := getRemainTime totalTicks t1
  let time2 := getRemainTime totalTicks t2
  if time1 = time2 then t1.ID - t2.ID
  else truncToInt (toDouble (time1 - time2))

/-- The function `cmpPriority` of `scheduler.cc`. -/
def cmpPriority (t1 t2 : Thread) : Int :=
  if t1.priority = t2.priority then t1.ID - t2.ID
  else t2.priority - t1.priority

/-! ## The tiered ready queue -/

/-- The method `MLFQ::Append`. -/
def MLFQ.Append (totalTicks : Int) (t : Thread) (q : MLFQ) : MLFQ :=
  let p := t.priority
  if p ≥ 100 then { q with L1 := SortedList.Insert (cmpRemainTime totalTicks) t q.L1 }
  else if p ≥ 50 then { q with L2 := SortedList.Insert cmpPriority t q.L2 }
  else { q with L3 := List.Append t q.L3 }

/-- The method `MLFQ::RemoveFront`: the returned thread (`none` for `NULL`)
and the queue afterwards. -/
def MLFQ.RemoveFront (q : MLFQ) : Option Thread × MLFQ :=
  if ¬ q.L1.isEmpty then ((List.RemoveFront q.L1).1, { q with L1 := (List.RemoveFront q.L1).2 })
  else if ¬ q.L2.isEmpty then ((List.RemoveFront q.L2).1, { q with L2 := (List.RemoveFront q.L2).2 })
  else if ¬ q.L3.isEmpty then ((List.RemoveFront q.L3).1, { q with L3 := (List.RemoveFront q.L3).2 })
  else (none, q)

/-- The method `MLFQ::Apply` for a visitor that mutates the visited thread. -/
def MLFQ.Apply (f : Thread → Thread) (q : MLFQ) : MLFQ :=
  { L1 := q.L1.map f, L2 := q.L2.map f, L3 := q.L3.map f }

/-- The method `MLFQ::IsEmpty`. -/
def MLFQ.IsEmpty (q : MLFQ) : Bool :=
  q.L1.isEmpty && q.L2.isEmpty && q.L3.isEmpty

/-- One call on the ready queue: `Append(t)` made while `totalTicks` has the
given value, or `RemoveFront()`. -/
inductive Op where
  | append (totalTicks : Int) (t : Thread)
  | removeFront

/-- The queue after a sequence of calls. -/
def MLFQ.run : MLFQ → List Op → MLFQ
  | q, [] => q
  | q, Op.append tick t :: ops => MLFQ.run (q.Append tick t) ops
  | q, Op.removeFront :: ops => MLFQ.run q.RemoveFront.2 ops

/-- The values returned by the `RemoveFront` calls of a sequence, in order. -/
def MLFQ.returned : MLFQ → List Op → List (Option Thread)
  | _, [] => []
  | q, Op.append tick t :: ops => MLFQ.returned (q.Append tick t) ops
  | q, Op.removeFront :: ops => q.RemoveFront.1 :: MLFQ.returned q.RemoveFront.2 ops

/-- The order the specification gives for L2: `a` goes before `b` when its
priority is strictly higher, or the priorities are equal and its ID is
strictly smaller. -/
def aheadInL2 (a b : Thread) : Prop :=
  a.priority > b.priority ∨ (a.priority = b.priority ∧ a.ID < b.ID)

/-- A sequence of calls on threads of the L2 band: every appended thread has
`50 ≤ priority < 100` and an ID different from the IDs resident in L2. -/
def L2Calls : MLFQ → List Op → Prop
  | _, [] => True
  | q, Op.append tick t :: ops =>
    (50 ≤ t.priority ∧ t.priority < 100) ∧ (∀ u ∈ q.L2, u.ID ≠ t.ID) ∧
      L2Calls (q.Append tick t) ops
  | q, Op.removeFront :: ops => L2Calls q.RemoveFront.2 ops

/-- A sequence of `Append` calls, one for each thread of the list, with the
value `totalTicks` has at the call. -/
def appendCalls (ts : List (Int × Thread)) : List Op :=
  ts.map (fun p => Op.append p.1 p.2)

/-! ## Aging -/

/-- The interrupt level read through `kernel->interrupt->getLevel()`. -/
inductive IntStatus where
  | IntOff
  | IntOn
  deriving DecidableEq, Repr

/-- The state of `class Scheduler`: the ready queue and the thread awaiting
destruction (`none` for `NULL`). -/
structure Scheduler where
  readyList : MLFQ
  toBeDestroyed : Option Thread
  deriving DecidableEq

/-- The part of the global `kernel` that `scheduler.cc` reads or writes. -/
structure Kernel where
  interruptLevel : IntStatus
  totalTicks : Int
  currentThread : Thread
  scheduler : Scheduler
  deriving DecidableEq

/-- The visitor `aging` of `scheduler.cc`, at the given value of `totalTicks`. -/
def aging (totalTicks : Int) (t : Thread) : Thread :=
  if totalTicks - t.beReadyTime > 1500 then
    { t with priority := min (t.priority + 10) 149, beReadyTime := totalTicks }
  else t

/-- The method `Scheduler::updatePriority`. -/
def Scheduler.updatePriority (k : Kernel) : Kernel :=
  { k with scheduler :=
      { k.scheduler with readyList := k.scheduler.readyList.Apply (aging k.totalTicks) } }

/-- The aging rule as the specification words it, relating a thread before
(`t`) and after (`u`) an `updatePriority` call at tick `now`. -/
def AgedAt (now : Int) (t u : Thread) : Prop :=
  (now - t.beReadyTime > 1500 →
      u.priority = min (t.priority + 10) 149 ∧ u.beReadyTime = now) ∧
    (now - t.beReadyTime ≤ 1500 →
      u.priority = t.priority ∧ u.beReadyTime = t.beReadyTime) ∧
    u.ID = t.ID ∧ u.status = t.status ∧ u.apxBurstTime = t.apxBurstTime ∧
    u.CPUBurstTime = t.CPUBurstTime ∧ u.cacheBurstTime = t.cacheBurstTime

/-! ## Sample threads -/

/-- A ready thread with the given ID, priority and burst times, stamped at tick 0. -/
def mkThread (id priority : Int) (apx cpu : ℚ) : Thread :=
  { ID := id, status := ThreadStatus.READY, priority := priority, apxBurstTime := apx,
    CPUBurstTime := cpu, cacheBurstTime := 0, beReadyTime := 0 }

/-- A tier-1 thread with ID 2 and remaining time 1. -/
def longThread : Thread := mkThread 2 100 1 0

/-- A tier-1 thread with ID 1 and remaining time 1/2. -/
def shortThread : Thread := mkThread 1 100 (1 / 2) 0

/-- A tier-2 thread with ID 2 and priority 90. -/
def urgentThread : Thread := mkThread 2 90 10 0

/-- A tier-2 thread with ID 1 and priority 60. -/
def modestThread : Thread := mkThread 1 60 10 0

/-- A tier-3 thread with ID 7 and priority 49. -/
def firstThread : Thread := mkThread 7 49 5 0

/-- A tier-3 thread with ID 3 and priority 0. -/
def secondThread : Thread := mkThread 3 0 1 0

/-- A thread waiting since tick 0 in L2 with priority 95. -/
def waitingThread : Thread := mkThread 4 95 10 0

/-! ## Preemption -/

/-- The value a `float` variable holds after it is assigned the `double` `d`:
IEEE binary32 round-to-nearest-even (24 significant bits, least exponent
-126).  A result of magnitude `2 ^ 128` stands for the infinity of that sign,
which compares with the finite values the way that number does. -/
def toFloat (d : ℚ) : ℚ :=
  if d = 0 then 0
  else
    let e : Int := max (Int.log 2 |d|) (-126)
    let ulp : ℚ := (2 : ℚ) ^ (e - 23)
    let m : ℚ := min ((roundHalfEven (|d| / ulp) : ℚ) * ulp) ((2 : ℚ) ^ (128 : Int))
    if 0 ≤ d then m else -m

/-- The method `Scheduler::shouldPreempt`. -/
def Scheduler.shouldPreempt (k : Kernel) : Bool :=
  let cur := k.currentThread
  let timeQuantum : ℚ := 100
  if cur.getLevel = 1 then
    match k.scheduler.readyList.L1 with
    | [] => false
    | t :: _ =>
      let remainTime := toFloat (getRemainTime k.totalTicks t)
      let curRemainTime := toFloat (getRemainTime k.totalTicks cur)
      if remainTime < curRemainTime then true else false
  else if cur.getLevel = 2 then
    if ¬ k.scheduler.readyList.L1.isEmpty then true else false
  else if cur.getLevel = 3 then
    let runningBurstTime := toFloat ((k.totalTicks : ℚ) - (cur.cacheBurstTime : ℚ))
    if ¬ k.scheduler.readyList.L1.isEmpty ∨ ¬ k.scheduler.readyList.L2.isEmpty
        ∨ runningBurstTime > timeQuantum then true
    else false
  else false

/-- A kernel at tick 101 running the tier-3 thread 7 since tick 0, with only
L3 occupied. -/
def quantumKernel : Kernel :=
  { interruptLevel := IntStatus.IntOff, totalTicks := 101, currentThread := firstThread,
    scheduler :=
      { readyList := { L1 := [], L2 := [], L3 := [secondThread] }, toBeDestroyed := none } }

/-- A kernel running the tier-2 thread 2 with thread 1 (tier 1) ready. -/
def tier2Kernel : Kernel :=
  { interruptLevel := IntStatus.IntOff, totalTicks := 40, currentThread := urgentThread,
    scheduler :=
      { readyList := { L1 := [shortThread], L2 := [modestThread], L3 := [] },
        toBeDestroyed := none } }

/-- A running tier-1 thread with ID 1 and estimated burst time 16777217. -/
def bigRunning : Thread :=
  { ID := 1, status := ThreadStatus.RUNNING, priority := 100, apxBurstTime := 16777217,
    CPUBurstTime := 0, cacheBurstTime := 0, beReadyTime := 0 }

/-- A ready tier-1 thread with ID 2 and estimated burst time 16777216. -/
def bigReady : Thread := mkThread 2 100 16777216 0

/-- A kernel at tick 0 running `bigRunning` with `bigReady` at the head of L1. -/
def bigKernel : Kernel :=
  { interruptLevel := IntStatus.IntOff, totalTicks := 0, currentThread := bigRunning,
    scheduler :=
      { readyList := { L1 := [bigReady], L2 := [], L3 := [] }, toBeDestroyed := none } }

/-! ## Scheduler routines -/

/-- The failed `ASSERT` that stops the kernel. -/
inductive Fatal where
  | gateNotHeld
  | alreadyPending
  | stackOverflow
  deriving DecidableEq, Repr

/-- The result of a scheduler routine: it returns `value` in the state `k`,
or it stops on a failed `ASSERT` with the state `k` reached at that point. -/
inductive Outcome (α : Type) where
  | ok (value : α) (k : Kernel)
  | fatal (e : Fatal) (k : Kernel)

/-- The state a routine ends in, returned or stopped. -/
def Outcome.kernel {α : Type} : Outcome α → Kernel
  | Outcome.ok _ k => k
  | Outcome.fatal _ k => k

/-- The returned value, when the routine returned. -/
def Outcome.value {α : Type} : Outcome α → Option α
  | Outcome.ok v _ => some v
  | Outcome.fatal _ _ => none

/-- Modelled from the spec: `Thread::setStatus` (`thread.h` is not part of the
sources at hand): the status becomes the given one. -/
def Thread.setStatus (st : ThreadStatus) (t : Thread) : Thread :=
  { t with status := st }

/-- The method `Scheduler::ReadyToRun`.  When the thread made ready is the one
`kernel->currentThread` points to (as in a yield), the new status shows
through that pointer too. -/
def Scheduler.ReadyToRun (k : Kernel) (thread : Thread) : Outcome Unit :=
  if k.interruptLevel = IntStatus.IntOff then
    Outcome.ok ()
      { k with
        currentThread :=
          if k.currentThread.ID = thread.ID then thread.setStatus ThreadStatus.READY
          else k.currentThread
        scheduler :=
          { k.scheduler with
            readyList :=
              k.scheduler.readyList.Append k.totalTicks (thread.setStatus ThreadStatus.READY) } }
  else Outcome.fatal Fatal.gateNotHeld k

/-- The method `Scheduler::FindNextToRun`. -/
def Scheduler.FindNextToRun (k : Kernel) : Outcome (Option Thread) :=
  if k.interruptLevel = IntStatus.IntOff then
    if k.scheduler.readyList.IsEmpty then Outcome.ok none k
    else
      Outcome.ok k.scheduler.readyList.RemoveFront.1
        { k with scheduler := { k.scheduler with readyList := k.scheduler.readyList.RemoveFront.2 } }
  else Outcome.fatal Fatal.gateNotHeld k

/-- The effect of `nextThread->setStatus(RUNNING)` on the record of a thread:
the record of the thread with the ID of `nextThread` gets status RUNNING, any
other record is untouched. -/
def Thread.markRunning (id : Int) (u : Thread) : Thread :=
  if u.ID = id then u.setStatus ThreadStatus.RUNNING else u

/-- The method `Scheduler::Run` up to its call of `SWITCH`.  `checkOverflow`
stands for `Thread::CheckOverflow` (`thread.h` is not part of the sources at
hand): it tells whether the stack of the thread is intact.  The saving of the
user registers and address space is not embedded.  `nextThread->setStatus`
writes through the pointer, so it shows in every place that holds
`nextThread`: the current thread, the ready queue, the pending-destruction
slot and the outgoing thread.  The value returned is the object `oldThread`
points to when `SWITCH` is reached. -/
def Scheduler.Run (checkOverflow : Thread → Bool) (k : Kernel) (nextThread : Thread)
    (finishing : Bool) : Outcome Thread :=
  let oldThread := k.currentThread
  if k.interruptLevel = IntStatus.IntOff then
    if finishing = true ∧ k.scheduler.toBeDestroyed ≠ none then
      Outcome.fatal Fatal.alreadyPending k
    else
      let k1 : Kernel :=
        if finishing then { k with scheduler := { k.scheduler with toBeDestroyed := some oldThread } }
        else k
      if checkOverflow oldThread then
        let running := nextThread.setStatus ThreadStatus.RUNNING
        let outgoing := if nextThread.ID = oldThread.ID then running else oldThread
        Outcome.ok outgoing
          { k1 with
            currentThread := running
            scheduler :=
              { readyList := k1.scheduler.readyList.Apply (Thread.markRunning nextThread.ID)
                toBeDestroyed :=
                  if finishing then some outgoing
                  else k1.scheduler.toBeDestroyed.map (Thread.markRunning nextThread.ID) } }
      else Outcome.fatal Fatal.stackOverflow k1
  else Outcome.fatal Fatal.gateNotHeld k

/-- The scheduler built by `Scheduler::Scheduler()`, in a kernel with the gate
held that runs the given thread at tick 0. -/
def Kernel.boot (main : Thread) : Kernel :=
  { interruptLevel := IntStatus.IntOff, totalTicks := 0, currentThread := main,
    scheduler := { readyList := MLFQ.new, toBeDestroyed := none } }

/-- One call on the scheduler. -/
inductive SchedCall where
  | readyToRun (t : Thread)
  | findNextToRun
  | updatePriority

/-- The kernel after one scheduler call made when `totalTicks` has the value
`tick`. -/
def Kernel.step (k : Kernel) (tick : Int) : SchedCall → Kernel
  | SchedCall.readyToRun t => (Scheduler.ReadyToRun { k with totalTicks := tick } t).kernel
  | SchedCall.findNextToRun => (Scheduler.FindNextToRun { k with totalTicks := tick }).kernel
  | SchedCall.updatePriority => Scheduler.updatePriority { k with totalTicks := tick }

/-- The kernel after a sequence of scheduler calls, each with its tick. -/
def Kernel.runCalls : Kernel → List (Int × SchedCall) → Kernel
  | k, [] => k
  | k, c :: cs => Kernel.runCalls (k.step c.1 c.2) cs

/-- The threads resident in the queue, tier by tier. -/
def MLFQ.resident (q : MLFQ) : List Thread :=
  q.L1 ++ q.L2 ++ q.L3

/-- A kernel with the gate held and thread 2 (priority 90) ready. -/
def heldKernel : Kernel :=
  { interruptLevel := IntStatus.IntOff, totalTicks := 10, currentThread := firstThread,
    scheduler :=
      { readyList := { L1 := [], L2 := [urgentThread], L3 := [] }, toBeDestroyed := none } }

/-- The kernel `heldKernel` after thread 7 finished and `Run` dispatched
thread 2, which was still in L2: thread 2 runs, its record in L2 has status
RUNNING, and thread 7 awaits destruction. -/
def dispatchedKernel : Kernel :=
  { interruptLevel := IntStatus.IntOff, totalTicks := 10,
    currentThread := urgentThread.setStatus ThreadStatus.RUNNING,
    scheduler :=
      { readyList := { L1 := [], L2 := [urgentThread.setStatus ThreadStatus.RUNNING], L3 := [] },
        toBeDestroyed := some firstThread } }

/-- A kernel at tick 2000 with interrupts enabled, running thread 7 (tier 3)
while thread 4 (priority 95, ready since tick 0) waits in L2. -/
def openKernel : Kernel :=
  { interruptLevel := IntStatus.IntOn, totalTicks := 2000, currentThread := firstThread,
    scheduler :=
      { readyList := { L1 := [], L2 := [waitingThread], L3 := [] }, toBeDestroyed := none } }

/-- A sequence of `ReadyToRun` and `FindNextToRun` calls, without any
`updatePriority`, in which every thread made ready has an ID different from
the IDs resident in L2. -/
def ReadyCalls : Kernel → List (Int × SchedCall) → Prop
  | _, [] => True
  | k, (tick, SchedCall.readyToRun t) :: cs =>
    (∀ u ∈ k.scheduler.readyList.L2, u.ID ≠ t.ID) ∧
      ReadyCalls (k.step tick (SchedCall.readyToRun t)) cs
  | k, (tick, SchedCall.findNextToRun) :: cs =>
    ReadyCalls (k.step tick SchedCall.findNextToRun) cs
  | _, (_, SchedCall.updatePriority) :: _ => False

/-- A tier-2 thread with ID 2 and priority 65, ready since tick 1000. -/
def lateThread : Thread :=
  { mkThread 2 65 10 0 with beReadyTime := 1000 }

/-- Thread 1 (priority 60, ready since tick 0) and thread 2 (priority 65,
ready since tick 1000) are made ready, then `updatePriority` runs at tick
1600. -/
def agingCalls : List (Int × SchedCall) :=
  [(0, SchedCall.readyToRun modestThread), (1000, SchedCall.readyToRun lateThread),
    (1600, SchedCall.updatePriority)]

/-! ## Consumer controller (`consumer_controller.hpp`) -/

/-- The fields of `class ConsumerController` that `process` reads or writes;
`C` stands for `Consumer` (`consumer.hpp` is not part of the sources at hand). -/
structure ConsumerController (C : Type) where
  consumers : List C
  check_period : Int
  low_threshold : Int
  high_threshold : Int

/-- One pass of the loop of `ConsumerController::process` after its `usleep`:
`wsize` is the value `worker_queue->get_size()` returns and `fresh` the
consumer `new Consumer(...)` builds.  Cancelling, joining and starting the
consumer threads is not embedded. -/
def ConsumerController.process {C : Type} (fresh : C) (wsize : Int)
    (ctr : ConsumerController C) : ConsumerController C :=
  let csize : Int := ctr.consumers.length
  if wsize < ctr.low_threshold then
    if csize > 1 then { ctr with consumers := ctr.consumers.dropLast }
    else ctr
  else if wsize > ctr.high_threshold then
    { ctr with consumers := ctr.consumers ++ [fresh] }
  else ctr

/-- A controller with the thresholds of `main.cpp` (40 and 160) and a single
consumer. -/
def loneController : ConsumerController Nat :=
  { consumers := [0], check_period := 1000000, low_threshold := 40, high_threshold := 160 }

/-! ## L1 with integer remaining times -/

/-- The remaining time of a thread that is not running, as `getRemainTime`
computes it: `apxBurstTime - CPUBurstTime` in `double`. -/
def Thread.remaining (t : Thread) : ℚ :=
  toDouble (t.apxBurstTime - t.CPUBurstTime)

/-- The order the specification gives for L1: `a` goes before `b` when its
remaining time is strictly smaller, or the remaining times are equal and its
ID is strictly smaller. -/
def aheadInL1 (a b : Thread) : Prop :=
  a.remaining < b.remaining ∨ (a.remaining = b.remaining ∧ a.ID < b.ID)

/-- A thread that is not running and whose remaining time is an integer. -/
def Thread.integerTimed (t : Thread) : Prop :=
  t.status ≠ ThreadStatus.RUNNING ∧ ∃ n : Int, t.remaining = (n : ℚ)

/-- The difference of the remaining times of `a` and `b` fits in a 32-bit
`int`. -/
def diffFitsInt (a b : Thread) : Prop :=
  -(2 : ℚ) ^ 31 ≤ a.remaining - b.remaining ∧ a.remaining - b.remaining < (2 : ℚ) ^ 31

/-- A sequence of calls in which every appended tier-1 thread is not running,
has an integer remaining time whose difference with that of every thread
resident in L1 fits in a 32-bit `int`, and has an ID different from the IDs
resident in L1. -/
def L1Calls : MLFQ → List Op → Prop
  | _, [] => True
  | q, Op.append tick t :: ops =>
    (100 ≤ t.priority →
      t.integerTimed ∧ ∀ u ∈ q.L1, u.ID ≠ t.ID ∧ diffFitsInt t u) ∧
      L1Calls (q.Append tick t) ops
  | q, Op.removeFront :: ops => L1Calls q.RemoveFront.2 ops

/-- A tier-1 thread with ID 2, estimated burst time `2 ^ 54` and one tick
consumed: its exact remaining time is `2 ^ 54 - 1`. -/
def hugeUsed : Thread := mkThread 2 100 18014398509481984 1

/-- A tier-1 thread with ID 1, estimated burst time `2 ^ 54` and no tick
consumed: its remaining time is `2 ^ 54`. -/
def hugeFresh : Thread := mkThread 1 100 18014398509481984 0

/-- A tier-1 thread with ID 5, estimated burst time 50 and priority 120. -/
def slowThread : Thread := mkThread 5 120 50 0

/-- A tier-1 thread with ID 6, estimated burst time 30 and priority 110. -/
def quickThread : Thread := mkThread 6 110 30 0

/-! ## Theorems -/

/-! ## Rounding -/

theorem roundHalfEven_intCast (n : Int) : roundHalfEven (n : ℚ) = n := by
  unfold roundHalfEven
  simp

theorem floor_le_roundHalfEven (x : ℚ) : ⌊x⌋ ≤ roundHalfEven x := by
  unfold roundHalfEven
  split_ifs <;> omega

theorem toDouble_of_pos (d : ℚ) (hd : 0 < d) :
    toDouble d = min ((roundHalfEven (d / (2 : ℚ) ^ (max (Int.log 2 d) (-1022) - 52)) : ℚ)
      * (2 : ℚ) ^ (max (Int.log 2 d) (-1022) - 52)) ((2 : ℚ) ^ (1024 : Int)) := by
  unfold toDouble
  rw [if_neg (ne_of_gt hd)]
  simp only [abs_of_pos hd]
  rw [if_pos (le_of_lt hd)]

theorem two_pow_le_double_top (x : ℚ) (h : x ≤ 2 ^ 60) : x ≤ (2 : ℚ) ^ (1024 : Int) := by
  have h60 : (2 : ℚ) ^ 60 = (2 : ℚ) ^ (60 : Int) := (zpow_ofNat 2 60).symm
  rw [h60] at h
  exact le_trans h (zpow_le_zpow_right₀ (by norm_num) (by decide))

theorem toDouble_neg (d : ℚ) : toDouble (-d) = -toDouble d := by
  rcases lt_trichotomy d 0 with h | rfl | h
  · have h1 : ¬ (0 ≤ d) := not_le.mpr h
    have h2 : (0 : ℚ) ≤ -d := by linarith
    have h3 : -d ≠ 0 := by linarith
    unfold toDouble
    rw [if_neg h3, if_neg (ne_of_lt h)]
    simp only [abs_neg]
    rw [if_pos h2, if_neg h1, neg_neg]
  · simp [toDouble]
  · have h1 : ¬ (0 ≤ -d) := by linarith
    have h3 : -d ≠ 0 := by linarith
    unfold toDouble
    rw [if_neg h3, if_neg (ne_of_gt h)]
    simp only [abs_neg]
    rw [if_neg h1, if_pos (le_of_lt h)]

theorem toDouble_natCast_small (n : ℕ) (h0 : 0 < n) (h53 : n < 2 ^ 53) :
    toDouble (n : ℚ) = n := by
  have hpos : (0 : ℚ) < n := by exact_mod_cast h0
  rw [toDouble_of_pos _ hpos, Int.log_natCast]
  have hj : Nat.log 2 n < 53 := Nat.log_lt_of_lt_pow (by omega) h53
  obtain ⟨k, hk⟩ : ∃ k : ℕ, Nat.log 2 n + k = 52 := ⟨52 - Nat.log 2 n, by omega⟩
  have he : max (Nat.log 2 n : Int) (-1022) - 52 = -(k : Int) := by omega
  rw [he, zpow_neg, zpow_natCast, div_inv_eq_mul]
  have hc : (n : ℚ) * 2 ^ k = ((n * 2 ^ k : ℕ) : Int) := by push_cast; ring
  rw [hc, roundHalfEven_intCast]
  have h2k : (2 : ℚ) ^ k ≠ 0 := by positivity
  have hval : (((n * 2 ^ k : ℕ) : Int) : ℚ) * ((2 : ℚ) ^ k)⁻¹ = n := by
    push_cast
    field_simp
  rw [hval]
  apply min_eq_left
  have h1 : (n : ℚ) < 2 ^ 53 := by exact_mod_cast h53
  apply two_pow_le_double_top
  have h2 : (2 : ℚ) ^ 53 ≤ 2 ^ 60 := by norm_num
  linarith

/-- An integer of magnitude below `2 ^ 53` is a `double`. -/
theorem toDouble_intCast_small (z : Int) (h1 : -(2 : Int) ^ 53 < z) (h2 : z < (2 : Int) ^ 53) :
    toDouble (z : ℚ) = z := by
  rcases lt_trichotomy z 0 with hneg | rfl | hpos
  · obtain ⟨n, hn⟩ : ∃ n : ℕ, z = -(n : Int) := ⟨(-z).toNat, by omega⟩
    subst hn
    have hn0 : 0 < n := by omega
    have hn53 : n < 2 ^ 53 := by omega
    rw [Int.cast_neg, Int.cast_natCast, toDouble_neg, toDouble_natCast_small n hn0 hn53]
  · simp [toDouble]
  · obtain ⟨n, hn⟩ : ∃ n : ℕ, z = (n : Int) := ⟨z.toNat, by omega⟩
    subst hn
    have hn0 : 0 < n := by omega
    have hn53 : n < 2 ^ 53 := by omega
    rw [Int.cast_natCast, toDouble_natCast_small n hn0 hn53]

theorem toDouble_half : toDouble (1 / 2) = 1 / 2 := by
  have hl : Int.log 2 ((1 : ℚ) / 2) = -1 := by
    have h := Int.log_zpow (R := ℚ) (b := 2) (by norm_num) (-1)
    simpa using h
  rw [toDouble_of_pos _ (by norm_num), hl]
  have h1 : max (-1 : Int) (-1022) - 52 = -53 := by decide
  rw [h1]
  have h2 : (1 : ℚ) / 2 / 2 ^ (-53 : Int) = ((2 ^ 52 : Int) : ℚ) := by
    rw [zpow_neg]; norm_num
  rw [h2, roundHalfEven_intCast]
  have h3 : (((2 ^ 52 : Int) : ℚ)) * 2 ^ (-53 : Int) = 1 / 2 := by
    rw [zpow_neg]; norm_num
  rw [h3]
  exact min_eq_left (two_pow_le_double_top _ (by norm_num))

theorem toDouble_pow54_pred : toDouble 18014398509481983 = 18014398509481984 := by
  have hl : Int.log 2 (18014398509481983 : ℚ) = 53 := by
    have h := Int.log_natCast (R := ℚ) 2 18014398509481983
    simp only [Nat.cast_ofNat] at h
    rw [h]
    have : Nat.log 2 18014398509481983 = 53 :=
      Nat.log_eq_of_pow_le_of_lt_pow (by norm_num) (by norm_num)
    rw [this]; rfl
  rw [toDouble_of_pos _ (by norm_num), hl]
  have h1 : max (53 : Int) (-1022) - 52 = 1 := by decide
  rw [h1]
  have h2 : roundHalfEven ((18014398509481983 : ℚ) / 2 ^ (1 : Int)) = 9007199254740992 := by
    norm_num [roundHalfEven]
  rw [h2]
  have h3 : ((9007199254740992 : Int) : ℚ) * 2 ^ (1 : Int) = 18014398509481984 := by norm_num
  rw [h3]
  exact min_eq_left (two_pow_le_double_top _ (by norm_num))

theorem toDouble_zero : toDouble 0 = 0 := by
  simp [toDouble]

theorem toDouble_16777216 : toDouble 16777216 = 16777216 := by
  have h := toDouble_natCast_small 16777216 (by norm_num) (by norm_num)
  simpa using h

theorem toDouble_16777217 : toDouble 16777217 = 16777217 := by
  have h := toDouble_natCast_small 16777217 (by norm_num) (by norm_num)
  simpa using h

theorem truncToInt_of_nonneg (d : ℚ) (h : 0 ≤ d) (hr : ⌊d⌋ < (2 : Int) ^ 31) :
    truncToInt d = ⌊d⌋ := by
  have h0 : (0 : Int) ≤ ⌊d⌋ := Int.floor_nonneg.mpr h
  unfold truncToInt
  simp only [if_pos h]
  rw [if_pos ⟨by omega, hr⟩]

theorem truncToInt_of_neg (d : ℚ) (h : d < 0) (hr : -(2 : Int) ^ 31 ≤ ⌈d⌉) :
    truncToInt d = ⌈d⌉ := by
  have h0 : ⌈d⌉ ≤ (0 : Int) := Int.ceil_le.mpr (by exact_mod_cast le_of_lt h)
  unfold truncToInt
  simp only [if_neg (not_le.mpr h)]
  rw [if_pos ⟨hr, by omega⟩]

theorem truncToInt_half : truncToInt (1 / 2) = 0 := by
  have hf : ⌊(1 : ℚ) / 2⌋ = 0 := by rw [Int.floor_eq_iff]; norm_num
  rw [truncToInt_of_nonneg _ (by norm_num) (by rw [hf]; decide), hf]

theorem truncToInt_neg_half : truncToInt (-(1 / 2)) = 0 := by
  have hc : ⌈-((1 : ℚ) / 2)⌉ = 0 := by rw [Int.ceil_eq_iff]; norm_num
  rw [truncToInt_of_neg _ (by norm_num) (by rw [hc]; decide), hc]

theorem RemoveFront_cons_L1 (q : MLFQ) (h : Thread) (rest : List Thread) (h1 : q.L1 = h :: rest) :
    q.RemoveFront = (some h, { q with L1 := rest }) := by
  simp [MLFQ.RemoveFront, h1, List.RemoveFront]

theorem RemoveFront_cons_L2 (q : MLFQ) (h : Thread) (rest : List Thread) (h1 : q.L1 = [])
    (h2 : q.L2 = h :: rest) : q.RemoveFront = (some h, { q with L2 := rest }) := by
  simp [MLFQ.RemoveFront, h1, h2, List.RemoveFront]

theorem RemoveFront_cons_L3 (q : MLFQ) (h : Thread) (rest : List Thread) (h1 : q.L1 = [])
    (h2 : q.L2 = []) (h3 : q.L3 = h :: rest) :
    q.RemoveFront = (some h, { q with L3 := rest }) := by
  simp [MLFQ.RemoveFront, h1, h2, h3, List.RemoveFront]

theorem RemoveFront_nil (q : MLFQ) (h1 : q.L1 = []) (h2 : q.L2 = []) (h3 : q.L3 = []) :
    q.RemoveFront = (none, q) := by
  simp [MLFQ.RemoveFront, h1, h2, h3]

theorem mem_Insert {α : Type} (cmp : α → α → Int) (t x : α) (l : List α) :
    x ∈ SortedList.Insert cmp t l ↔ x = t ∨ x ∈ l := by
  induction l with
  | nil => simp [SortedList.Insert]
  | cons e rest ih =>
    unfold SortedList.Insert
    split_ifs
    · simp
    · simp only [List.mem_cons, ih]
      tauto

theorem pairwise_Insert {α : Type} (cmp : α → α → Int) (R : α → α → Prop)
    (hcmp : ∀ a b, cmp a b < 0 → R a b) (htrans : ∀ a b c, R a b → R b c → R a c)
    (t : α) (l : List α) (hl : l.Pairwise R) (htot : ∀ x ∈ l, ¬ cmp t x < 0 → R x t) :
    (SortedList.Insert cmp t l).Pairwise R := by
  induction l with
  | nil => simp [SortedList.Insert]
  | cons e rest ih =>
    rw [List.pairwise_cons] at hl
    unfold SortedList.Insert
    split_ifs with hlt
    · refine List.pairwise_cons.mpr ⟨?_, List.pairwise_cons.mpr hl⟩
      intro x hx
      rcases List.mem_cons.mp hx with rfl | hx
      · exact hcmp _ _ hlt
      · exact htrans _ _ _ (hcmp _ _ hlt) (hl.1 x hx)
    · refine List.pairwise_cons.mpr ⟨?_, ih hl.2 (fun x hx => htot x (List.mem_cons_of_mem _ hx))⟩
      intro x hx
      rcases (mem_Insert cmp t x rest).mp hx with rfl | hx
      · exact htot e (List.mem_cons_self _ _) hlt
      · exact hl.1 x hx

theorem cmpPriority_neg_iff (a b : Thread) : cmpPriority a b < 0 ↔ aheadInL2 a b := by
  unfold cmpPriority aheadInL2
  split_ifs <;> omega

theorem aheadInL2_trans (a b c : Thread) (h1 : aheadInL2 a b) (h2 : aheadInL2 b c) :
    aheadInL2 a c := by
  unfold aheadInL2 at *
  omega

theorem aheadInL2_asymm (a b : Thread) (h1 : aheadInL2 a b) (h2 : aheadInL2 b a) : False := by
  unfold aheadInL2 at *
  omega

theorem aheadInL2_total (a b : Thread) (hid : a.ID ≠ b.ID) (h : ¬ aheadInL2 a b) :
    aheadInL2 b a := by
  unfold aheadInL2 at *
  omega

theorem Append_L2_band (tick : Int) (t : Thread) (q : MLFQ) (h1 : 50 ≤ t.priority)
    (h2 : t.priority < 100) :
    q.Append tick t = { q with L2 := SortedList.Insert cmpPriority t q.L2 } := by
  unfold MLFQ.Append
  simp only
  rw [if_neg (by omega), if_pos (by omega)]

theorem L2_sorted_Append (tick : Int) (t : Thread) (q : MLFQ) (h1 : 50 ≤ t.priority)
    (h2 : t.priority < 100) (hid : ∀ u ∈ q.L2, u.ID ≠ t.ID) (hs : q.L2.Pairwise aheadInL2) :
    (q.Append tick t).L2.Pairwise aheadInL2 := by
  rw [Append_L2_band tick t q h1 h2]
  refine pairwise_Insert cmpPriority aheadInL2 (fun a b h => (cmpPriority_neg_iff a b).mp h)
    aheadInL2_trans t q.L2 hs ?_
  intro x hx hn
  exact aheadInL2_total t x (fun h => hid x hx h.symm)
    (fun h => hn ((cmpPriority_neg_iff t x).mpr h))

theorem RemoveFront_L1_nil (q : MLFQ) (h1 : q.L1 = []) : q.RemoveFront.2.L1 = [] := by
  unfold MLFQ.RemoveFront
  simp only [h1]
  split_ifs <;> simp_all

theorem RemoveFront_L2_tail (q : MLFQ) (h1 : q.L1 = []) : q.RemoveFront.2.L2 = q.L2.tail := by
  rcases hq : q.L2 with _ | ⟨e, rest⟩
  · unfold MLFQ.RemoveFront
    simp only [h1, hq]
    split_ifs <;> simp [hq]
  · rw [RemoveFront_cons_L2 q e rest h1 hq]
    simp

/-- The invariant of the L2 band: L1 is empty and L2 is sorted. -/
theorem L2_inv_run (ops : List Op) : ∀ q : MLFQ, q.L1 = [] → q.L2.Pairwise aheadInL2 →
    L2Calls q ops → (q.run ops).L1 = [] ∧ (q.run ops).L2.Pairwise aheadInL2 := by
  induction ops with
  | nil => intro q h1 h2 _; exact ⟨h1, h2⟩
  | cons op ops ih =>
    intro q h1 h2 hv
    cases op with
    | append tick t =>
      obtain ⟨⟨hp1, hp2⟩, hid, hv⟩ := hv
      refine ih _ ?_ (L2_sorted_Append tick t q hp1 hp2 hid h2) hv
      rw [Append_L2_band tick t q hp1 hp2]
      exact h1
    | removeFront =>
      refine ih _ (RemoveFront_L1_nil q h1) ?_ hv
      rw [RemoveFront_L2_tail q h1]
      exact h2.sublist (List.tail_sublist _)

theorem L2Calls_append (ops1 ops2 : List Op) : ∀ q : MLFQ,
    L2Calls q (ops1 ++ ops2) → L2Calls q ops1 ∧ L2Calls (q.run ops1) ops2 := by
  induction ops1 with
  | nil => intro q h; exact ⟨trivial, h⟩
  | cons op ops ih =>
    intro q h
    cases op with
    | append tick t =>
      obtain ⟨hp, hid, hv⟩ := h
      exact ⟨⟨hp, hid, (ih _ hv).1⟩, (ih _ hv).2⟩
    | removeFront => exact ih _ h

theorem L2_removal_order (A B : Thread) (hAB : aheadInL2 A B) (ops : List Op) :
    ∀ (q : MLFQ) (pre post : List (Option Thread)), q.L1 = [] → q.L2.Pairwise aheadInL2 →
    L2Calls q ops → A ∈ q.L2 → B ∈ q.L2 → q.returned ops = pre ++ some B :: post →
    some A ∈ pre := by
  induction ops with
  | nil =>
    intro q pre post _ _ _ _ _ hret
    simp [MLFQ.returned] at hret
  | cons op ops ih =>
    intro q pre post h1 h2 hv hA hB hret
    cases op with
    | append tick t =>
      obtain ⟨⟨hp1, hp2⟩, hid, hv⟩ := hv
      have hs := L2_sorted_Append tick t q hp1 hp2 hid h2
      have hq := Append_L2_band tick t q hp1 hp2
      refine ih (q.Append tick t) pre post ?_ hs hv ?_ ?_ hret
      · rw [hq]; exact h1
      · rw [hq]; exact (mem_Insert _ _ _ _).mpr (Or.inr hA)
      · rw [hq]; exact (mem_Insert _ _ _ _).mpr (Or.inr hB)
    | removeFront =>
      rcases hq : q.L2 with _ | ⟨e, rest⟩
      · rw [hq] at hA; simp at hA
      · have hrf := RemoveFront_cons_L2 q e rest h1 hq
        rw [hq] at hA hB h2
        rw [List.pairwise_cons] at h2
        have hBrest : B ∈ rest := by
          rcases List.mem_cons.mp hB with rfl | hB
          · rcases List.mem_cons.mp hA with rfl | hA
            · exact (aheadInL2_asymm _ _ hAB hAB).elim
            · exact (aheadInL2_asymm _ _ hAB (h2.1 A hA)).elim
          · exact hB
        simp only [MLFQ.returned, hrf] at hret
        simp only [L2Calls, hrf] at hv
        rcases pre with _ | ⟨p, pre⟩
        · simp only [List.nil_append, List.cons.injEq, Option.some.injEq] at hret
          rcases List.mem_cons.mp hA with rfl | hA
          · exact (aheadInL2_asymm _ _ hAB (hret.1 ▸ hAB)).elim
          · exact (aheadInL2_asymm _ _ hAB (hret.1 ▸ h2.1 A hA)).elim
        · simp only [List.cons_append, List.cons.injEq] at hret
          rcases List.mem_cons.mp hA with rfl | hA
          · rw [← hret.1]; exact List.mem_cons_self _ _
          · exact List.mem_cons_of_mem _
              (ih { q with L2 := rest } pre post h1 h2.2 hv hA hBrest hret.2)

/-! ## C1: tier dominance of `RemoveFront` -/

/-- C1: in every queue state, so in every state reached by `Append` calls,
`RemoveFront` returns and removes the head of L1 when L1 is not empty, else the
head of L2 when L2 is not empty, else the head of L3 when L3 is not empty, and
else returns `none` on an unchanged queue; the tiers not chosen stay as they
were. -/
theorem RemoveFront_tier_dominance (q : MLFQ) :
    (∀ h rest, q.L1 = h :: rest → q.RemoveFront = (some h, { q with L1 := rest })) ∧
    (∀ h rest, q.L1 = [] → q.L2 = h :: rest →
      q.RemoveFront = (some h, { q with L2 := rest })) ∧
    (∀ h rest, q.L1 = [] → q.L2 = [] → q.L3 = h :: rest →
      q.RemoveFront = (some h, { q with L3 := rest })) ∧
    (q.L1 = [] → q.L2 = [] → q.L3 = [] → q.RemoveFront = (none, q)) :=
  ⟨RemoveFront_cons_L1 q, RemoveFront_cons_L2 q, RemoveFront_cons_L3 q, RemoveFront_nil q⟩

/-! ## C2: L1 and fractional remaining times -/

/-- C2, the code at a failing input: thread 2 (remaining time 1) is appended,
then thread 1 (remaining time 1/2).  Thread 1 has the strictly smaller
remaining time, and the smaller ID, yet `cmpRemainTime` truncates the
difference of 1/2 to 0 in either direction, the insertion puts thread 1 behind
thread 2, and `RemoveFront` returns thread 2 first. -/
theorem L1_fractional_order_violated :
    getRemainTime 0 shortThread < getRemainTime 0 longThread ∧
    shortThread.ID < longThread.ID ∧
    cmpRemainTime 0 shortThread longThread = 0 ∧
    cmpRemainTime 0 longThread shortThread = 0 ∧
    MLFQ.returned MLFQ.new
        [Op.append 0 longThread, Op.append 0 shortThread, Op.removeFront, Op.removeFront]
      = [some longThread, some shortThread] := by
  have hs : getRemainTime 0 shortThread = 1 / 2 := by
    unfold getRemainTime
    rw [if_neg (by decide)]
    have h : shortThread.apxBurstTime - shortThread.CPUBurstTime = 1 / 2 := by
      norm_num [shortThread, mkThread]
    rw [h, toDouble_half]
  have hl : getRemainTime 0 longThread = 1 := by
    unfold getRemainTime
    rw [if_neg (by decide)]
    have h : longThread.apxBurstTime - longThread.CPUBurstTime = ((1 : ℕ) : ℚ) := by
      norm_num [longThread, mkThread]
    rw [h, toDouble_natCast_small 1 (by norm_num) (by norm_num)]
    norm_num
  have hmh : toDouble (-(1 / 2)) = -(1 / 2) := by rw [toDouble_neg, toDouble_half]
  have hc : cmpRemainTime 0 shortThread longThread = 0 := by
    unfold cmpRemainTime
    simp only [hs, hl]
    rw [if_neg (by norm_num)]
    have h : (1 : ℚ) / 2 - 1 = -(1 / 2) := by norm_num
    rw [h, hmh, truncToInt_neg_half]
  have hc2 : cmpRemainTime 0 longThread shortThread = 0 := by
    unfold cmpRemainTime
    simp only [hs, hl]
    rw [if_neg (by norm_num)]
    have h : (1 : ℚ) - 1 / 2 = 1 / 2 := by norm_num
    rw [h, toDouble_half, truncToInt_half]
  refine ⟨?_, ?_, hc, hc2, ?_⟩
  · rw [hs, hl]; norm_num
  · decide
  · have h1 : shortThread.priority = 100 := rfl
    have h2 : longThread.priority = 100 := rfl
    simp [MLFQ.returned, MLFQ.new, MLFQ.Append, MLFQ.RemoveFront, SortedList.Insert,
      List.RemoveFront, hc, h1, h2]

/-! ## C3: L2 is ordered by priority -/

/-- C3: take any sequence of `Append` and `RemoveFront` calls from the empty
queue on threads with `50 ≤ priority < 100` whose IDs differ from the resident
ones.  In the state reached, L2 is sorted by descending priority, ties by
ascending ID; and for A and B resident in L2 with A of strictly higher
priority, or of equal priority and smaller ID, every later `RemoveFront` that
returns B comes after one that returned A. -/
theorem L2_priority_order (ops₀ ops : List Op) (A B : Thread)
    (hv : L2Calls MLFQ.new (ops₀ ++ ops))
    (hA : A ∈ (MLFQ.new.run ops₀).L2) (hB : B ∈ (MLFQ.new.run ops₀).L2)
    (hAB : A.priority > B.priority ∨ (A.priority = B.priority ∧ A.ID < B.ID)) :
    (MLFQ.new.run ops₀).L2.Pairwise aheadInL2 ∧
    ∀ pre post, (MLFQ.new.run ops₀).returned ops = pre ++ some B :: post → some A ∈ pre := by
  obtain ⟨hv0, hv1⟩ := L2Calls_append ops₀ ops MLFQ.new hv
  obtain ⟨h1, h2⟩ := L2_inv_run ops₀ MLFQ.new rfl List.Pairwise.nil hv0
  exact ⟨h2, fun pre post hret =>
    L2_removal_order A B hAB ops _ pre post h1 h2 hv1 hA hB hret⟩

theorem sample_L2_state :
    MLFQ.new.run [Op.append 0 modestThread, Op.append 5 urgentThread]
      = { L1 := [], L2 := [urgentThread, modestThread], L3 := [] } := by
  have h1 : urgentThread.priority = 90 := rfl
  have h2 : modestThread.priority = 60 := rfl
  have hc : cmpPriority urgentThread modestThread = -30 := by decide
  simp [MLFQ.run, MLFQ.new, MLFQ.Append, SortedList.Insert, h1, h2, hc]

theorem sample_L2_calls :
    L2Calls MLFQ.new ([Op.append 0 modestThread, Op.append 5 urgentThread]
      ++ [Op.removeFront, Op.removeFront]) := by
  have h1 : urgentThread.priority = 90 := rfl
  have h2 : modestThread.priority = 60 := rfl
  have h3 : urgentThread.ID = 2 := rfl
  have h4 : modestThread.ID = 1 := rfl
  simp [L2Calls, MLFQ.new, MLFQ.Append, SortedList.Insert, h1, h2, h3, h4]

/-- C3 at a concrete run: thread 1 (priority 60) is appended before thread 2
(priority 90); thread 2 is ahead in L2 and is returned first. -/
theorem L2_priority_order_witness :
    (MLFQ.new.run [Op.append 0 modestThread, Op.append 5 urgentThread]).L2.Pairwise aheadInL2 ∧
    ∀ pre post,
      (MLFQ.new.run [Op.append 0 modestThread, Op.append 5 urgentThread]).returned
          [Op.removeFront, Op.removeFront] = pre ++ some modestThread :: post →
        some urgentThread ∈ pre :=
  L2_priority_order [Op.append 0 modestThread, Op.append 5 urgentThread]
    [Op.removeFront, Op.removeFront] urgentThread modestThread sample_L2_calls
    (by rw [sample_L2_state]; simp) (by rw [sample_L2_state]; simp)
    (Or.inl (by decide))

/-! ## C4: L3 is first-in first-out -/

theorem Append_L3_band (tick : Int) (t : Thread) (q : MLFQ) (h : t.priority < 50) :
    q.Append tick t = { q with L3 := q.L3 ++ [t] } := by
  unfold MLFQ.Append List.Append
  simp only
  rw [if_neg (by omega), if_neg (by omega)]

theorem run_appendCalls_L3 (ts : List (Int × Thread)) (hp : ∀ p ∈ ts, p.2.priority < 50) :
    ∀ q : MLFQ, q.run (appendCalls ts) = { q with L3 := q.L3 ++ ts.map Prod.snd } := by
  induction ts with
  | nil => intro q; simp [appendCalls, MLFQ.run]
  | cons p ts ih =>
    intro q
    have hp1 : p.2.priority < 50 := hp p (List.mem_cons_self _ _)
    have ih1 := ih (fun x hx => hp x (List.mem_cons_of_mem _ hx)) (q.Append p.1 p.2)
    simp only [appendCalls, List.map_cons, MLFQ.run] at ih1 ⊢
    rw [ih1, Append_L3_band p.1 p.2 q hp1]
    simp

theorem returned_append_calls (ts : List (Int × Thread)) (ops : List Op) :
    ∀ q : MLFQ, q.returned (appendCalls ts ++ ops) = (q.run (appendCalls ts)).returned ops := by
  induction ts with
  | nil => intro q; simp [appendCalls, MLFQ.run]
  | cons p ts ih =>
    intro q
    have ih1 := ih (q.Append p.1 p.2)
    simp only [appendCalls, List.map_cons, List.cons_append, MLFQ.run, MLFQ.returned] at ih1 ⊢
    exact ih1

theorem returned_drain_L3 (l : List Thread) :
    MLFQ.returned { L1 := [], L2 := [], L3 := l } (List.replicate l.length Op.removeFront)
      = l.map some := by
  induction l with
  | nil => simp [MLFQ.returned]
  | cons e rest ih =>
    simp only [List.length_cons, List.replicate_succ, MLFQ.returned, List.map_cons]
    rw [RemoveFront_cons_L3 { L1 := [], L2 := [], L3 := e :: rest } e rest rfl rfl rfl]
    simp only [List.cons.injEq, true_and]
    exact ih

/-- C4: `Append` of a thread with priority below 50 puts it at the end of L3
and leaves L1 and L2 alone, whatever its other fields; so after any sequence
of such `Append` calls on the empty queue L3 is the sequence of the appended
threads, and as many `RemoveFront` calls return them in the order they were
appended. -/
theorem L3_fifo (ts : List (Int × Thread)) (hp : ∀ p ∈ ts, p.2.priority < 50) :
    (∀ (q : MLFQ) (tick : Int) (t : Thread), t.priority < 50 →
      q.Append tick t = { q with L3 := q.L3 ++ [t] }) ∧
    MLFQ.new.run (appendCalls ts) = { L1 := [], L2 := [], L3 := ts.map Prod.snd } ∧
    MLFQ.new.returned (appendCalls ts ++ List.replicate ts.length Op.removeFront)
      = (ts.map Prod.snd).map some := by
  have hrun : MLFQ.new.run (appendCalls ts) = { L1 := [], L2 := [], L3 := ts.map Prod.snd } := by
    rw [run_appendCalls_L3 ts hp MLFQ.new]
    simp [MLFQ.new]
  refine ⟨fun q tick t h => Append_L3_band tick t q h, hrun, ?_⟩
  rw [returned_append_calls ts _ MLFQ.new, hrun]
  have h := returned_drain_L3 (ts.map Prod.snd)
  rw [List.length_map] at h
  exact h

/-- C4 at a concrete run: thread 7 (priority 49) then thread 3 (priority 0)
are appended and come back in that order. -/
theorem L3_fifo_witness :
    MLFQ.new.returned (appendCalls [(0, firstThread), (4, secondThread)]
        ++ List.replicate 2 Op.removeFront)
      = [some firstThread, some secondThread] :=
  (L3_fifo [(0, firstThread), (4, secondThread)] (by
    intro p hp
    simp only [List.mem_cons, List.mem_singleton, List.not_mem_nil, or_false] at hp
    rcases hp with rfl | rfl <;> decide)).2.2

/-! ## C5: tier placement by `Append` -/

theorem Insert_split {α : Type} (cmp : α → α → Int) (t : α) (l : List α) :
    ∃ pre post, l = pre ++ post ∧ SortedList.Insert cmp t l = pre ++ t :: post := by
  induction l with
  | nil => exact ⟨[], [], rfl, rfl⟩
  | cons e rest ih =>
    unfold SortedList.Insert
    split_ifs
    · exact ⟨[], e :: rest, rfl, rfl⟩
    · obtain ⟨pre, post, h1, h2⟩ := ih
      exact ⟨e :: pre, post, by rw [h1]; rfl, by rw [h2]; rfl⟩

theorem Append_L1_band (tick : Int) (t : Thread) (q : MLFQ) (h : 100 ≤ t.priority) :
    q.Append tick t = { q with L1 := SortedList.Insert (cmpRemainTime tick) t q.L1 } := by
  unfold MLFQ.Append
  simp only
  rw [if_pos (by omega)]

/-- C5: for a thread `t` with priority in `[0,149]`, `Append` inserts `t`
itself (priority and status as they are) into the tier of its derived level,
L1 iff priority ≥ 100, L2 iff 50 ≤ priority < 100, L3 otherwise, and leaves
the other two tiers unchanged.  The tier is computed from the priority the
thread has at the call, so the same holds for the thread with a changed
priority. -/
theorem Append_tier_placement (tick : Int) (t : Thread) (q : MLFQ)
    (h0 : 0 ≤ t.priority) (h149 : t.priority ≤ 149) :
    ((t.getLevel = 1 ↔ 100 ≤ t.priority) ∧ (t.getLevel = 2 ↔ 50 ≤ t.priority ∧ t.priority < 100) ∧
      (t.getLevel = 3 ↔ t.priority < 50)) ∧
    (t.getLevel = 1 →
      (∃ pre post, q.L1 = pre ++ post ∧ (q.Append tick t).L1 = pre ++ t :: post) ∧
        (q.Append tick t).L2 = q.L2 ∧ (q.Append tick t).L3 = q.L3) ∧
    (t.getLevel = 2 →
      (∃ pre post, q.L2 = pre ++ post ∧ (q.Append tick t).L2 = pre ++ t :: post) ∧
        (q.Append tick t).L1 = q.L1 ∧ (q.Append tick t).L3 = q.L3) ∧
    (t.getLevel = 3 →
      (q.Append tick t).L3 = q.L3 ++ [t] ∧
        (q.Append tick t).L1 = q.L1 ∧ (q.Append tick t).L2 = q.L2) ∧
    (∀ p : Int, 0 ≤ p → p ≤ 149 →
      (100 ≤ p → { t with priority := p } ∈ (q.Append tick { t with priority := p }).L1) ∧
      (50 ≤ p → p < 100 →
        { t with priority := p } ∈ (q.Append tick { t with priority := p }).L2) ∧
      (p < 50 → { t with priority := p } ∈ (q.Append tick { t with priority := p }).L3)) := by
  have hlev : (t.getLevel = 1 ↔ 100 ≤ t.priority) ∧
      (t.getLevel = 2 ↔ 50 ≤ t.priority ∧ t.priority < 100) ∧
      (t.getLevel = 3 ↔ t.priority < 50) := by
    unfold Thread.getLevel
    split_ifs <;> omega
  refine ⟨hlev, ?_, ?_, ?_, ?_⟩
  · intro h
    rw [Append_L1_band tick t q (hlev.1.mp h)]
    exact ⟨Insert_split _ t q.L1, rfl, rfl⟩
  · intro h
    rw [Append_L2_band tick t q (hlev.2.1.mp h).1 (hlev.2.1.mp h).2]
    exact ⟨Insert_split _ t q.L2, rfl, rfl⟩
  · intro h
    rw [Append_L3_band tick t q (hlev.2.2.mp h)]
    exact ⟨rfl, rfl, rfl⟩
  · intro p _ _
    refine ⟨fun h => ?_, fun h1 h2 => ?_, fun h => ?_⟩
    · rw [Append_L1_band tick _ q h]
      exact (mem_Insert _ _ _ _).mpr (Or.inl rfl)
    · rw [Append_L2_band tick _ q h1 h2]
      exact (mem_Insert _ _ _ _).mpr (Or.inl rfl)
    · rw [Append_L3_band tick _ q h]
      simp

/-- C5 at a concrete call: thread 2 (priority 90, level 2) appended to the
empty queue lands in L2; L1 and L3 stay empty. -/
theorem Append_tier_placement_witness :
    (0 ≤ urgentThread.priority ∧ urgentThread.priority ≤ 149) ∧
    (∃ pre post, MLFQ.new.L2 = pre ++ post ∧
        (MLFQ.new.Append 0 urgentThread).L2 = pre ++ urgentThread :: post) ∧
      (MLFQ.new.Append 0 urgentThread).L1 = MLFQ.new.L1 ∧
      (MLFQ.new.Append 0 urgentThread).L3 = MLFQ.new.L3 :=
  ⟨⟨by decide, by decide⟩,
    (Append_tier_placement 0 urgentThread MLFQ.new (by decide) (by decide)).2.2.1 (by decide)⟩

/-! ## C6 and C7: aging -/

theorem aging_AgedAt (now : Int) (t : Thread) : AgedAt now t (aging now t) := by
  unfold AgedAt aging
  split_ifs with h
  · exact ⟨fun _ => ⟨rfl, rfl⟩, fun h2 => absurd h (by omega), rfl, rfl, rfl, rfl, rfl⟩
  · exact ⟨fun h2 => absurd h2 h, fun _ => ⟨rfl, rfl⟩, rfl, rfl, rfl, rfl, rfl⟩

theorem forall₂_map_aging (now : Int) (l : List Thread) :
    List.Forall₂ (AgedAt now) l (l.map (aging now)) := by
  induction l with
  | nil => exact List.Forall₂.nil
  | cons e rest ih => exact List.Forall₂.cons (aging_AgedAt now e) ih

/-- C6: `updatePriority` visits every thread resident in L1, L2 and L3, in
place: a thread with `totalTicks - beReadyTime > 1500` gets priority
`min (priority + 10) 149` and `beReadyTime = totalTicks`, any other keeps both,
and no other field of a resident thread changes.  The running thread, the
thread awaiting destruction, the tick count and the interrupt level are
unchanged. -/
theorem updatePriority_aging (k : Kernel) :
    List.Forall₂ (AgedAt k.totalTicks) k.scheduler.readyList.L1
      (Scheduler.updatePriority k).scheduler.readyList.L1 ∧
    List.Forall₂ (AgedAt k.totalTicks) k.scheduler.readyList.L2
      (Scheduler.updatePriority k).scheduler.readyList.L2 ∧
    List.Forall₂ (AgedAt k.totalTicks) k.scheduler.readyList.L3
      (Scheduler.updatePriority k).scheduler.readyList.L3 ∧
    (Scheduler.updatePriority k).currentThread = k.currentThread ∧
    (Scheduler.updatePriority k).scheduler.toBeDestroyed = k.scheduler.toBeDestroyed ∧
    (Scheduler.updatePriority k).totalTicks = k.totalTicks ∧
    (Scheduler.updatePriority k).interruptLevel = k.interruptLevel :=
  ⟨forall₂_map_aging _ _, forall₂_map_aging _ _, forall₂_map_aging _ _, rfl, rfl, rfl, rfl⟩

/-- C7: aging a thread twice at the same tick is the same as aging it once;
and after a boost at tick `T` (more than 1500 ticks after `beReadyTime`) the
priority is `min (priority + 10) 149`, and a second aging step at any tick
`T2` with `T2 - T ≤ 1500` changes nothing. -/
theorem aging_boosts_once (t : Thread) (T T2 : Int) :
    aging T (aging T t) = aging T t ∧
    (T - t.beReadyTime > 1500 → T2 - T ≤ 1500 →
      (aging T t).priority = min (t.priority + 10) 149 ∧
      aging T2 (aging T t) = aging T t) := by
  constructor
  · by_cases h : T - t.beReadyTime > 1500
    · have hb : aging T t =
          { t with priority := min (t.priority + 10) 149, beReadyTime := T } := by
        unfold aging
        rw [if_pos h]
      rw [hb]
      unfold aging
      rw [if_neg]
      simp only
      omega
    · have hb : aging T t = t := by
        unfold aging
        rw [if_neg h]
      rw [hb, hb]
  · intro h1 h2
    have hb : aging T t =
        { t with priority := min (t.priority + 10) 149, beReadyTime := T } := by
      unfold aging
      rw [if_pos h1]
    rw [hb]
    refine ⟨rfl, ?_⟩
    unfold aging
    rw [if_neg]
    simp only
    omega

/-- C7 at a concrete thread: thread 4 (priority 95, ready since tick 0) is
boosted to 105 at tick 2000 and not again at tick 3500. -/
theorem aging_boosts_once_witness :
    (aging 2000 waitingThread).priority = 105 ∧
    aging 3500 (aging 2000 waitingThread) = aging 2000 waitingThread :=
  ((aging_boosts_once waitingThread 2000 3500).2 (by decide) (by decide))

/-! ## C8, C9 and C10: preemption -/

theorem toFloat_of_pos (d : ℚ) (hd : 0 < d) :
    toFloat d = min ((roundHalfEven (d / (2 : ℚ) ^ (max (Int.log 2 d) (-126) - 23)) : ℚ)
      * (2 : ℚ) ^ (max (Int.log 2 d) (-126) - 23)) ((2 : ℚ) ^ (128 : Int)) := by
  unfold toFloat
  rw [if_neg (ne_of_gt hd)]
  simp only [abs_of_pos hd]
  rw [if_pos (le_of_lt hd)]

theorem toFloat_natCast_small (n : ℕ) (h0 : 0 < n) (h24 : n < 2 ^ 24) :
    toFloat (n : ℚ) = n := by
  have hpos : (0 : ℚ) < n := by exact_mod_cast h0
  rw [toFloat_of_pos _ hpos, Int.log_natCast]
  have hj : Nat.log 2 n < 24 := Nat.log_lt_of_lt_pow (by omega) h24
  obtain ⟨k, hk⟩ : ∃ k : ℕ, Nat.log 2 n + k = 23 := ⟨23 - Nat.log 2 n, by omega⟩
  have he : max (Nat.log 2 n : Int) (-126) - 23 = -(k : Int) := by omega
  rw [he, zpow_neg, zpow_natCast, div_inv_eq_mul]
  have hc : (n : ℚ) * 2 ^ k = ((n * 2 ^ k : ℕ) : Int) := by push_cast; ring
  rw [hc, roundHalfEven_intCast]
  have h2k : (2 : ℚ) ^ k ≠ 0 := by positivity
  have hval : (((n * 2 ^ k : ℕ) : Int) : ℚ) * ((2 : ℚ) ^ k)⁻¹ = n := by
    push_cast
    field_simp
  rw [hval]
  apply min_eq_left
  have : (n : ℚ) < 2 ^ 24 := by exact_mod_cast h24
  have h128 : (2 : ℚ) ^ (128 : Int) = 2 ^ 128 := by norm_cast
  rw [h128]
  have : (2 : ℚ) ^ 24 ≤ 2 ^ 128 := by norm_num
  linarith

theorem toFloat_natCast_large (n : ℕ) (h24 : 2 ^ 24 ≤ n) : (2 : ℚ) ^ 24 ≤ toFloat (n : ℚ) := by
  have h0 : 0 < n := lt_of_lt_of_le (by norm_num) h24
  have hpos : (0 : ℚ) < n := by exact_mod_cast h0
  rw [toFloat_of_pos _ hpos, Int.log_natCast]
  have hj : 24 ≤ Nat.log 2 n := by
    rw [show (24 : ℕ) = Nat.log 2 (2 ^ 24) by rw [Nat.log_pow (by omega)]]
    exact Nat.log_mono_right h24
  obtain ⟨k, hk⟩ : ∃ k : ℕ, Nat.log 2 n = k + 24 := ⟨Nat.log 2 n - 24, by omega⟩
  have he : max (Nat.log 2 n : Int) (-126) - 23 = ((k + 1 : ℕ) : Int) := by omega
  rw [he, zpow_natCast]
  have hle : 2 ^ (k + 24) ≤ n := by
    rw [← hk]; exact Nat.pow_log_le_self 2 (by omega)
  have h2k : (0 : ℚ) < 2 ^ (k + 1) := by positivity
  have hq : ((2 ^ 23 : Int) : ℚ) ≤ (n : ℚ) / 2 ^ (k + 1) := by
    rw [le_div_iff₀ h2k]
    have : ((2 ^ (k + 24) : ℕ) : ℚ) ≤ n := by exact_mod_cast hle
    push_cast at this ⊢
    calc (2 : ℚ) ^ 23 * 2 ^ (k + 1) = 2 ^ (k + 24) := by ring
      _ ≤ n := this
  have hfl : (2 ^ 23 : Int) ≤ ⌊(n : ℚ) / 2 ^ (k + 1)⌋ := Int.le_floor.mpr hq
  have hr : (2 ^ 23 : Int) ≤ roundHalfEven ((n : ℚ) / 2 ^ (k + 1)) :=
    le_trans hfl (floor_le_roundHalfEven _)
  have hrq : ((2 : ℚ) ^ 23) ≤ (roundHalfEven ((n : ℚ) / 2 ^ (k + 1)) : ℚ) := by
    exact_mod_cast hr
  have h1k : (1 : ℚ) ≤ 2 ^ k := one_le_pow₀ (by norm_num)
  apply le_min
  · calc (2 : ℚ) ^ 24 = 2 ^ 24 * 1 := by ring
      _ ≤ 2 ^ 24 * 2 ^ k := mul_le_mul_of_nonneg_left h1k (by positivity)
      _ = 2 ^ 23 * 2 ^ (k + 1) := by ring
      _ ≤ (roundHalfEven ((n : ℚ) / 2 ^ (k + 1)) : ℚ) * 2 ^ (k + 1) :=
          mul_le_mul_of_nonneg_right hrq (le_of_lt h2k)
  · have h128 : (2 : ℚ) ^ (128 : Int) = 2 ^ 128 := by norm_cast
    rw [h128]
    norm_num

theorem toFloat_of_neg (d : ℚ) (hd : d < 0) : toFloat d ≤ 0 := by
  unfold toFloat
  rw [if_neg (ne_of_lt hd)]
  simp only
  rw [if_neg (not_le.mpr hd)]
  have hfl : (0 : Int) ≤ ⌊|d| / (2 : ℚ) ^ (max (Int.log 2 |d|) (-126) - 23)⌋ :=
    Int.floor_nonneg.mpr (div_nonneg (abs_nonneg d) (le_of_lt (zpow_pos (by norm_num) _)))
  have hr : (0 : ℚ) ≤ (roundHalfEven (|d| / (2 : ℚ) ^ (max (Int.log 2 |d|) (-126) - 23)) : ℚ) := by
    exact_mod_cast le_trans hfl (floor_le_roundHalfEven _)
  have hm : (0 : ℚ) ≤ min
      ((roundHalfEven (|d| / (2 : ℚ) ^ (max (Int.log 2 |d|) (-126) - 23)) : ℚ)
        * (2 : ℚ) ^ (max (Int.log 2 |d|) (-126) - 23)) ((2 : ℚ) ^ (128 : Int)) :=
    le_min (mul_nonneg hr (le_of_lt (zpow_pos (by norm_num) _)))
      (le_of_lt (zpow_pos (by norm_num) _))
  linarith

/-- The quantum test on a tick span: an integer number of ticks exceeds 100 as
a `float` exactly when it exceeds 100. -/
theorem toFloat_intCast_gt_100 (x : Int) : 100 < toFloat (x : ℚ) ↔ 100 < x := by
  rcases lt_trichotomy x 0 with hneg | rfl | hpos
  · have h := toFloat_of_neg (x : ℚ) (by exact_mod_cast hneg)
    constructor
    · intro h1; linarith
    · intro h1; omega
  · simp [toFloat]
  · obtain ⟨n, rfl⟩ : ∃ n : ℕ, x = n := ⟨x.toNat, by omega⟩
    have hn : 0 < n := by exact_mod_cast hpos
    rw [Int.cast_natCast]
    by_cases h24 : n < 2 ^ 24
    · rw [toFloat_natCast_small n hn h24]
      constructor
      · intro h; exact_mod_cast h
      · intro h; exact_mod_cast h
    · have h := toFloat_natCast_large n (by omega)
      constructor
      · intro _
        have : (2 : ℕ) ^ 24 ≤ n := by omega
        have h100 : (100 : ℕ) < 2 ^ 24 := by norm_num
        exact_mod_cast lt_of_lt_of_le h100 this
      · intro _
        have : (100 : ℚ) < 2 ^ 24 := by norm_num
        linarith

theorem shouldPreempt_level3 (k : Kernel) (h : k.currentThread.priority < 50) :
    Scheduler.shouldPreempt k =
      if ¬ k.scheduler.readyList.L1.isEmpty ∨ ¬ k.scheduler.readyList.L2.isEmpty
          ∨ toFloat ((k.totalTicks : ℚ) - (k.currentThread.cacheBurstTime : ℚ)) > 100
      then true else false := by
  have hl : k.currentThread.getLevel = 3 := by
    unfold Thread.getLevel
    rw [if_neg (by omega), if_neg (by omega)]
  unfold Scheduler.shouldPreempt
  simp only [hl]
  rw [if_neg (by decide), if_neg (by decide), if_pos trivial]

/-- C8: when the running thread is tier 3 (priority below 50) and L1 and L2
are empty, `shouldPreempt` returns true exactly when
`totalTicks - cacheBurstTime > 100`, so it returns false at a span of exactly
100 ticks or less; L3 is arbitrary. -/
theorem shouldPreempt_quantum (k : Kernel) (h3 : k.currentThread.priority < 50)
    (h1 : k.scheduler.readyList.L1 = []) (h2 : k.scheduler.readyList.L2 = []) :
    (Scheduler.shouldPreempt k = true ↔ k.totalTicks - k.currentThread.cacheBurstTime > 100) ∧
    (k.totalTicks - k.currentThread.cacheBurstTime ≤ 100 → Scheduler.shouldPreempt k = false) := by
  have hq : Scheduler.shouldPreempt k = true ↔
      k.totalTicks - k.currentThread.cacheBurstTime > 100 := by
    rw [shouldPreempt_level3 k h3, h1, h2]
    have hc : (k.totalTicks : ℚ) - (k.currentThread.cacheBurstTime : ℚ)
        = ((k.totalTicks - k.currentThread.cacheBurstTime : Int) : ℚ) := by push_cast; ring
    rw [hc]
    have hf := toFloat_intCast_gt_100 (k.totalTicks - k.currentThread.cacheBurstTime)
    simp only [List.isEmpty_nil, not_true_eq_false, false_or, gt_iff_lt, hf]
    simp
  refine ⟨hq, fun hle => ?_⟩
  cases hb : Scheduler.shouldPreempt k
  · rfl
  · exact absurd (hq.mp hb) (by omega)

/-- C8 at a concrete state: thread 7 (priority 49) has run for 101 ticks. -/
theorem shouldPreempt_quantum_witness :
    Scheduler.shouldPreempt quantumKernel = true ↔
      quantumKernel.totalTicks - quantumKernel.currentThread.cacheBurstTime > 100 :=
  (shouldPreempt_quantum quantumKernel (by decide) rfl rfl).1

/-- C9: when the running thread is tier 2 (`50 ≤ priority < 100`),
`shouldPreempt` returns true exactly when L1 is not empty, whatever L2, L3,
the tick count and the running thread's burst-time fields are. -/
theorem shouldPreempt_tier2 (k : Kernel) (h50 : 50 ≤ k.currentThread.priority)
    (h100 : k.currentThread.priority < 100) :
    Scheduler.shouldPreempt k = true ↔ k.scheduler.readyList.L1 ≠ [] := by
  have hl : k.currentThread.getLevel = 2 := by
    unfold Thread.getLevel
    rw [if_neg (by omega), if_pos (by omega)]
  unfold Scheduler.shouldPreempt
  simp only [hl]
  rw [if_neg (by decide), if_pos trivial]
  simp

/-- C9 at a concrete state: thread 2 (priority 90) runs while L1 holds a thread. -/
theorem shouldPreempt_tier2_witness :
    Scheduler.shouldPreempt tier2Kernel = true ↔ tier2Kernel.scheduler.readyList.L1 ≠ [] :=
  shouldPreempt_tier2 tier2Kernel (by decide) (by decide)

theorem toFloat_16777216 : toFloat 16777216 = 16777216 := by
  have hl : Int.log 2 (16777216 : ℚ) = 24 := by
    have h := Int.log_natCast (R := ℚ) 2 16777216
    simp only [Nat.cast_ofNat] at h
    rw [h]
    have : Nat.log 2 16777216 = 24 := by
      rw [show (16777216 : ℕ) = 2 ^ 24 by norm_num, Nat.log_pow (by omega)]
    rw [this]; rfl
  rw [toFloat_of_pos _ (by norm_num), hl]
  norm_num [roundHalfEven]

theorem toFloat_16777217 : toFloat 16777217 = 16777216 := by
  have hl : Int.log 2 (16777217 : ℚ) = 24 := by
    have h := Int.log_natCast (R := ℚ) 2 16777217
    simp only [Nat.cast_ofNat] at h
    rw [h]
    have : Nat.log 2 16777217 = 24 :=
      Nat.log_eq_of_pow_le_of_lt_pow (by norm_num) (by norm_num)
    rw [this]; rfl
  rw [toFloat_of_pos _ (by norm_num), hl]
  norm_num [roundHalfEven]

/-- C10, the code at a failing input: the running tier-1 thread has remaining
time 16777217 and the head of L1 has remaining time 16777216, strictly
smaller.  Both are narrowed to `float`, where 16777217 rounds to 16777216, the
comparison `remainTime < curRemainTime` is false and `shouldPreempt` returns
false. -/
theorem shouldPreempt_float_collapse :
    bigKernel.currentThread.priority ≥ 100 ∧
    bigKernel.currentThread.status = ThreadStatus.RUNNING ∧
    bigKernel.scheduler.readyList.L1 = [bigReady] ∧
    bigReady.apxBurstTime - bigReady.CPUBurstTime
      < bigRunning.apxBurstTime
        - (bigRunning.CPUBurstTime + (bigKernel.totalTicks : ℚ) - (bigRunning.cacheBurstTime : ℚ)) ∧
    Scheduler.shouldPreempt bigKernel = false := by
  refine ⟨by decide, rfl, rfl, ?_, ?_⟩
  · norm_num [bigReady, bigRunning, bigKernel, mkThread]
  · have hl : bigKernel.currentThread.getLevel = 1 := by decide
    have h1 : getRemainTime bigKernel.totalTicks bigReady = 16777216 := by
      unfold getRemainTime
      rw [if_neg (by decide)]
      have h : bigReady.apxBurstTime - bigReady.CPUBurstTime = 16777216 := by
        norm_num [bigReady, mkThread]
      rw [h, toDouble_16777216]
    have h2 : getRemainTime bigKernel.totalTicks bigKernel.currentThread = 16777217 := by
      unfold getRemainTime
      rw [if_pos (by decide)]
      have ha : bigKernel.currentThread.CPUBurstTime + (bigKernel.totalTicks : ℚ) = 0 := by
        norm_num [bigKernel, bigRunning]
      have hb : (0 : ℚ) - (bigKernel.currentThread.cacheBurstTime : ℚ) = 0 := by
        norm_num [bigKernel, bigRunning]
      have hc : bigKernel.currentThread.apxBurstTime - 0 = 16777217 := by
        norm_num [bigKernel, bigRunning]
      rw [ha, toDouble_zero, hb, toDouble_zero, hc, toDouble_16777217]
    unfold Scheduler.shouldPreempt
    simp only [hl]
    rw [if_pos trivial]
    have hL : bigKernel.scheduler.readyList.L1 = [bigReady] := rfl
    simp only [hL, h1, h2, toFloat_16777216, toFloat_16777217]
    simp

/-! ## C11 and C12: `ReadyToRun` and `FindNextToRun` -/

theorem IsEmpty_iff (q : MLFQ) : q.IsEmpty = true ↔ q.L1 = [] ∧ q.L2 = [] ∧ q.L3 = [] := by
  unfold MLFQ.IsEmpty
  simp [List.isEmpty_iff, and_assoc]

/-- What `RemoveFront` does on a queue that is not empty: it returns a
resident thread, takes it out of its tier and leaves the rest in place. -/
theorem RemoveFront_nonempty (q : MLFQ) (hne : q.IsEmpty = false) :
    ∃ t q2, q.RemoveFront = (some t, q2) ∧ t ∈ q.resident ∧
      List.Perm q.resident (t :: q2.resident) ∧
      q2.L1.Sublist q.L1 ∧ q2.L2.Sublist q.L2 ∧ q2.L3.Sublist q.L3 := by
  have hne2 : ¬ (q.L1 = [] ∧ q.L2 = [] ∧ q.L3 = []) := by
    rw [← IsEmpty_iff, hne]; simp
  rcases h1 : q.L1 with _ | ⟨a, r1⟩
  · rcases h2 : q.L2 with _ | ⟨b, r2⟩
    · rcases h3 : q.L3 with _ | ⟨c, r3⟩
      · exact absurd ⟨h1, h2, h3⟩ hne2
      · refine ⟨c, { q with L3 := r3 }, RemoveFront_cons_L3 q c r3 h1 h2 h3, ?_, ?_, ?_, ?_, ?_⟩
        · simp [MLFQ.resident, h1, h2, h3]
        · simp [MLFQ.resident, h1, h2, h3]
        · simp [h1]
        · simp [h2]
        · simp
    · refine ⟨b, { q with L2 := r2 }, RemoveFront_cons_L2 q b r2 h1 h2, ?_, ?_, ?_, ?_, ?_⟩
      · simp [MLFQ.resident, h1, h2]
      · simp [MLFQ.resident, h1, h2]
      · simp [h1]
      · simp
      · exact List.Sublist.refl _
  · refine ⟨a, { q with L1 := r1 }, RemoveFront_cons_L1 q a r1 h1, ?_, ?_, ?_, ?_, ?_⟩
    · simp [MLFQ.resident, h1]
    · simp [MLFQ.resident, h1]
    · simp
    · exact List.Sublist.refl _
    · exact List.Sublist.refl _

/-- C11: with the gate held, `ReadyToRun(t)` returns; the thread gets status
READY, whatever its status was, and is inserted into the tier of its
priority, the threads resident before keep their tier and their order, and
the pending-destruction slot and the identity of the current thread are
unchanged. -/
theorem ReadyToRun_postcondition (k : Kernel) (t : Thread)
    (hgate : k.interruptLevel = IntStatus.IntOff) :
    ∃ k2, Scheduler.ReadyToRun k t = Outcome.ok () k2 ∧
      (t.setStatus ThreadStatus.READY).status = ThreadStatus.READY ∧
      (t.setStatus ThreadStatus.READY).priority = t.priority ∧
      (100 ≤ t.priority →
        (∃ pre post, k.scheduler.readyList.L1 = pre ++ post ∧
          k2.scheduler.readyList.L1 = pre ++ t.setStatus ThreadStatus.READY :: post) ∧
        k2.scheduler.readyList.L2 = k.scheduler.readyList.L2 ∧
        k2.scheduler.readyList.L3 = k.scheduler.readyList.L3) ∧
      (50 ≤ t.priority → t.priority < 100 →
        (∃ pre post, k.scheduler.readyList.L2 = pre ++ post ∧
          k2.scheduler.readyList.L2 = pre ++ t.setStatus ThreadStatus.READY :: post) ∧
        k2.scheduler.readyList.L1 = k.scheduler.readyList.L1 ∧
        k2.scheduler.readyList.L3 = k.scheduler.readyList.L3) ∧
      (t.priority < 50 →
        k2.scheduler.readyList.L3 =
          k.scheduler.readyList.L3 ++ [t.setStatus ThreadStatus.READY] ∧
        k2.scheduler.readyList.L1 = k.scheduler.readyList.L1 ∧
        k2.scheduler.readyList.L2 = k.scheduler.readyList.L2) ∧
      k2.scheduler.toBeDestroyed = k.scheduler.toBeDestroyed ∧
      k2.currentThread.ID = k.currentThread.ID ∧
      (k.currentThread.ID ≠ t.ID → k2.currentThread = k.currentThread) ∧
      k2.interruptLevel = k.interruptLevel ∧ k2.totalTicks = k.totalTicks := by
  have hrun : Scheduler.ReadyToRun k t = Outcome.ok ()
      { k with
        currentThread :=
          if k.currentThread.ID = t.ID then t.setStatus ThreadStatus.READY else k.currentThread
        scheduler :=
          { k.scheduler with
            readyList :=
              k.scheduler.readyList.Append k.totalTicks (t.setStatus ThreadStatus.READY) } } := by
    unfold Scheduler.ReadyToRun
    rw [if_pos hgate]
  refine ⟨_, hrun, rfl, rfl, ?_, ?_, ?_, rfl, ?_, ?_, rfl, rfl⟩
  · intro h
    have hp : 100 ≤ (t.setStatus ThreadStatus.READY).priority := h
    rw [Append_L1_band _ _ _ hp]
    exact ⟨Insert_split _ _ _, rfl, rfl⟩
  · intro h1 h2
    have hp1 : 50 ≤ (t.setStatus ThreadStatus.READY).priority := h1
    have hp2 : (t.setStatus ThreadStatus.READY).priority < 100 := h2
    rw [Append_L2_band _ _ _ hp1 hp2]
    exact ⟨Insert_split _ _ _, rfl, rfl⟩
  · intro h
    have hp : (t.setStatus ThreadStatus.READY).priority < 50 := h
    rw [Append_L3_band _ _ _ hp]
    exact ⟨rfl, rfl, rfl⟩
  · simp only
    split_ifs with h
    · exact h.symm
    · rfl
  · intro h
    simp only
    rw [if_neg h]

/-- C11 at a concrete call: the blocked thread 4 (priority 95) is made ready
in a kernel with the gate held; it lands in L2 in front of thread 2 (priority
90). -/
theorem ReadyToRun_postcondition_witness :
    ∃ k2, Scheduler.ReadyToRun heldKernel (waitingThread.setStatus ThreadStatus.BLOCKED)
        = Outcome.ok () k2 ∧
      (∃ pre post, heldKernel.scheduler.readyList.L2 = pre ++ post ∧
          k2.scheduler.readyList.L2 = pre ++
            (waitingThread.setStatus ThreadStatus.BLOCKED).setStatus ThreadStatus.READY :: post) ∧
      k2.scheduler.toBeDestroyed = heldKernel.scheduler.toBeDestroyed ∧
      k2.currentThread.ID = heldKernel.currentThread.ID := by
  obtain ⟨k2, h1, _, _, _, h2, _, h3, h4, _⟩ :=
    ReadyToRun_postcondition heldKernel (waitingThread.setStatus ThreadStatus.BLOCKED) rfl
  exact ⟨k2, h1, (h2 (by decide) (by decide)).1, h3, h4⟩

/-- C12: with the gate held, `FindNextToRun` returns; it returns `none`
exactly when the ready queue `IsEmpty` (all three tiers empty), and leaves
the state alone then; otherwise it returns what `MLFQ::RemoveFront` returns,
a thread resident in the queue with its fields as they are, and the queue is
the one `RemoveFront` leaves, whose tiers hold the other threads unchanged.
The current thread and the pending-destruction slot are unchanged. -/
theorem FindNextToRun_result (k : Kernel) (hgate : k.interruptLevel = IntStatus.IntOff) :
    ∃ r k2, Scheduler.FindNextToRun k = Outcome.ok r k2 ∧
      (r = none ↔ k.scheduler.readyList.IsEmpty = true) ∧
      (k.scheduler.readyList.IsEmpty = true ↔
        k.scheduler.readyList.L1 = [] ∧ k.scheduler.readyList.L2 = [] ∧
          k.scheduler.readyList.L3 = []) ∧
      (k.scheduler.readyList.IsEmpty = true → k2 = k) ∧
      (k.scheduler.readyList.IsEmpty = false →
        r = k.scheduler.readyList.RemoveFront.1 ∧
        k2.scheduler.readyList = k.scheduler.readyList.RemoveFront.2) ∧
      (∀ t, r = some t → t ∈ k.scheduler.readyList.resident ∧
        List.Perm k.scheduler.readyList.resident (t :: k2.scheduler.readyList.resident)) ∧
      k2.scheduler.readyList.L1.Sublist k.scheduler.readyList.L1 ∧
      k2.scheduler.readyList.L2.Sublist k.scheduler.readyList.L2 ∧
      k2.scheduler.readyList.L3.Sublist k.scheduler.readyList.L3 ∧
      k2.currentThread = k.currentThread ∧
      k2.scheduler.toBeDestroyed = k.scheduler.toBeDestroyed := by
  cases he : k.scheduler.readyList.IsEmpty
  · obtain ⟨t, q2, hrf, hmem, hperm, hs1, hs2, hs3⟩ :=
      RemoveFront_nonempty k.scheduler.readyList he
    refine ⟨some t, { k with scheduler := { k.scheduler with readyList := q2 } }, ?_, ?_, ?_, ?_,
      ?_, ?_, hs1, hs2, hs3, rfl, rfl⟩
    · unfold Scheduler.FindNextToRun
      rw [if_pos hgate, he, hrf]
      simp
    · simp
    · rw [← IsEmpty_iff, he]
    · intro h; exact absurd h (by simp)
    · intro _; rw [hrf]; exact ⟨rfl, rfl⟩
    · intro u hu
      injection hu with hu
      subst hu
      exact ⟨hmem, hperm⟩
  · refine ⟨none, k, ?_, ?_, ?_, ?_, ?_, ?_, List.Sublist.refl _, List.Sublist.refl _,
      List.Sublist.refl _, rfl, rfl⟩
    · unfold Scheduler.FindNextToRun
      rw [if_pos hgate, he]
      simp
    · simp
    · rw [← IsEmpty_iff, he]
    · intro _; rfl
    · intro h; exact absurd h (by simp)
    · intro u hu; exact absurd hu (by simp)

/-- C12 at a concrete call: the only ready thread, thread 2, is returned and
the queue is empty afterwards. -/
theorem FindNextToRun_result_witness :
    ∃ r k2, Scheduler.FindNextToRun heldKernel = Outcome.ok r k2 ∧
      (r = none ↔ heldKernel.scheduler.readyList.IsEmpty = true) ∧
      k2.currentThread = heldKernel.currentThread := by
  obtain ⟨r, k2, h1, h2, _, _, _, _, _, _, _, h3, _⟩ := FindNextToRun_result heldKernel rfl
  exact ⟨r, k2, h1, h2, h3⟩

/-! ## C13, C14 and C15: `Run` -/

theorem Run_pending_fatal (chk : Thread → Bool) (k : Kernel) (t2 : Thread)
    (hgate : k.interruptLevel = IntStatus.IntOff) (hslot : k.scheduler.toBeDestroyed ≠ none) :
    Scheduler.Run chk k t2 true = Outcome.fatal Fatal.alreadyPending k := by
  unfold Scheduler.Run
  simp only
  rw [if_pos hgate, if_pos ⟨trivial, hslot⟩]

theorem Run_gate_open (chk : Thread → Bool) (k : Kernel) (t2 : Thread) (f : Bool)
    (hgate : ¬ k.interruptLevel = IntStatus.IntOff) :
    Scheduler.Run chk k t2 f = Outcome.fatal Fatal.gateNotHeld k := by
  unfold Scheduler.Run
  simp only
  rw [if_neg hgate]

theorem Run_overflow (chk : Thread → Bool) (k : Kernel) (t2 : Thread) (f : Bool)
    (hgate : k.interruptLevel = IntStatus.IntOff)
    (hslot : ¬ (f = true ∧ k.scheduler.toBeDestroyed ≠ none))
    (hchk : ¬ chk k.currentThread = true) :
    Scheduler.Run chk k t2 f = Outcome.fatal Fatal.stackOverflow
      (if f = true then
        { k with scheduler := { k.scheduler with toBeDestroyed := some k.currentThread } }
      else k) := by
  unfold Scheduler.Run
  simp only
  rw [if_pos hgate, if_neg hslot, if_neg hchk]

theorem Run_ok (chk : Thread → Bool) (k : Kernel) (t2 : Thread) (f : Bool)
    (hgate : k.interruptLevel = IntStatus.IntOff)
    (hslot : ¬ (f = true ∧ k.scheduler.toBeDestroyed ≠ none))
    (hchk : chk k.currentThread = true) :
    Scheduler.Run chk k t2 f =
      Outcome.ok
        (if t2.ID = k.currentThread.ID then t2.setStatus ThreadStatus.RUNNING
          else k.currentThread)
        { k with
          currentThread := t2.setStatus ThreadStatus.RUNNING
          scheduler :=
            { readyList := k.scheduler.readyList.Apply (Thread.markRunning t2.ID)
              toBeDestroyed :=
                if f = true then
                  some (if t2.ID = k.currentThread.ID then t2.setStatus ThreadStatus.RUNNING
                    else k.currentThread)
                else k.scheduler.toBeDestroyed.map (Thread.markRunning t2.ID) } } := by
  unfold Scheduler.Run
  simp only
  rw [if_pos hgate, if_neg hslot, if_pos hchk]
  cases f <;> simp

theorem Run_not_finishing (chk : Thread → Bool) (k : Kernel) (t2 : Thread) :
    ∀ e k2, Scheduler.Run chk k t2 false = Outcome.fatal e k2 → e ≠ Fatal.alreadyPending := by
  intro e k2 h
  by_cases hgate : k.interruptLevel = IntStatus.IntOff
  · have hslot : ¬ (false = true ∧ k.scheduler.toBeDestroyed ≠ none) := by simp
    by_cases hchk : chk k.currentThread = true
    · rw [Run_ok chk k t2 false hgate hslot hchk] at h
      cases h
    · rw [Run_overflow chk k t2 false hgate hslot hchk] at h
      injection h with h4 _
      rw [← h4]; decide
  · rw [Run_gate_open chk k t2 false hgate] at h
    injection h with h4 _
    rw [← h4]; decide

theorem Run_ok_slot (chk : Thread → Bool) (k : Kernel) (t : Thread) (out : Thread) (k1 : Kernel)
    (h : Scheduler.Run chk k t true = Outcome.ok out k1) :
    k1.interruptLevel = IntStatus.IntOff ∧ k1.scheduler.toBeDestroyed = some out := by
  by_cases hgate : k.interruptLevel = IntStatus.IntOff
  · by_cases hslot : (true = true ∧ k.scheduler.toBeDestroyed ≠ none)
    · rw [Run_pending_fatal chk k t hgate hslot.2] at h
      cases h
    · by_cases hchk : chk k.currentThread = true
      · rw [Run_ok chk k t true hgate hslot hchk] at h
        injection h with h4 h5
        rw [← h5, ← h4]
        exact ⟨hgate, by simp⟩
      · rw [Run_overflow chk k t true hgate hslot hchk] at h
        cases h
  · rw [Run_gate_open chk k t true hgate] at h
    cases h

/-- C13: in a state whose pending-destruction slot is not empty,
`Run(t2, finishing = true)` stops fatally in the state it was called in, so
the slot is not overwritten, and with the gate held the failed assertion is
`toBeDestroyed == NULL`; `Run(t2, finishing = false)` never stops on that
assertion.  So when `Run(t, true)` reached its `SWITCH`, a second
`Run(t2, true)` with no `CheckToBeDestroyed` in between stops on it. -/
theorem Run_single_pending (chk : Thread → Bool) (k : Kernel) (t t2 : Thread) :
    (k.scheduler.toBeDestroyed ≠ none →
      (∃ e, Scheduler.Run chk k t2 true = Outcome.fatal e k) ∧
      (k.interruptLevel = IntStatus.IntOff →
        Scheduler.Run chk k t2 true = Outcome.fatal Fatal.alreadyPending k)) ∧
    (∀ e k2, Scheduler.Run chk k t2 false = Outcome.fatal e k2 → e ≠ Fatal.alreadyPending) ∧
    (∀ out k1, Scheduler.Run chk k t true = Outcome.ok out k1 →
      Scheduler.Run chk k1 t2 true = Outcome.fatal Fatal.alreadyPending k1 ∧
      ∀ e k2, Scheduler.Run chk k1 t2 false = Outcome.fatal e k2 → e ≠ Fatal.alreadyPending) := by
  refine ⟨fun hslot => ⟨?_, fun hgate => Run_pending_fatal chk k t2 hgate hslot⟩,
    Run_not_finishing chk k t2, ?_⟩
  · by_cases hgate : k.interruptLevel = IntStatus.IntOff
    · exact ⟨_, Run_pending_fatal chk k t2 hgate hslot⟩
    · exact ⟨Fatal.gateNotHeld, Run_gate_open chk k t2 true hgate⟩
  · intro out k1 h
    obtain ⟨hg, hs⟩ := Run_ok_slot chk k t out k1 h
    exact ⟨Run_pending_fatal chk k1 t2 hg (by rw [hs]; simp), Run_not_finishing chk k1 t2⟩

theorem sample_Run_finishing :
    Scheduler.Run (fun _ => true) heldKernel urgentThread true
      = Outcome.ok firstThread dispatchedKernel := by
  rw [Run_ok (fun _ => true) heldKernel urgentThread true rfl (by simp [heldKernel]) rfl]
  have hid : ¬ urgentThread.ID = heldKernel.currentThread.ID := by decide
  have hm : Thread.markRunning urgentThread.ID urgentThread
      = urgentThread.setStatus ThreadStatus.RUNNING := by
    unfold Thread.markRunning
    rw [if_pos rfl]
  simp only [if_neg hid, if_true]
  simp only [heldKernel, dispatchedKernel, MLFQ.Apply, List.map, hm]

/-- C13 at a concrete run: thread 7 finishes and thread 2 is dispatched; a
second finishing `Run` before any switch-back stops on the pending slot. -/
theorem Run_single_pending_witness :
    Scheduler.Run (fun _ => true) dispatchedKernel modestThread true
      = Outcome.fatal Fatal.alreadyPending dispatchedKernel :=
  ((Run_single_pending (fun _ => true) heldKernel urgentThread modestThread).2.2
    _ _ sample_Run_finishing).1

/-- C14, the code at a failing input: in a kernel with interrupts enabled
`ReadyToRun`, `FindNextToRun` and `Run` stop on their gate assertion with the
state untouched, but `updatePriority` and `shouldPreempt` have no such
assertion: `updatePriority` ages the waiting thread 4 from priority 95 to 105
and returns, and `shouldPreempt` returns its decision. -/
theorem gate_not_checked_by_policy_routines :
    openKernel.interruptLevel = IntStatus.IntOn ∧
    Scheduler.ReadyToRun openKernel modestThread = Outcome.fatal Fatal.gateNotHeld openKernel ∧
    Scheduler.FindNextToRun openKernel = Outcome.fatal Fatal.gateNotHeld openKernel ∧
    Scheduler.Run (fun _ => true) openKernel modestThread false
      = Outcome.fatal Fatal.gateNotHeld openKernel ∧
    (Scheduler.updatePriority openKernel).scheduler.readyList.L2
      = [{ waitingThread with priority := 105, beReadyTime := 2000 }] ∧
    Scheduler.updatePriority openKernel ≠ openKernel ∧
    Scheduler.shouldPreempt openKernel = true := by
  have hup : (Scheduler.updatePriority openKernel).scheduler.readyList.L2
      = [{ waitingThread with priority := 105, beReadyTime := 2000 }] := by
    have ha : aging 2000 waitingThread
        = { waitingThread with priority := 105, beReadyTime := 2000 } := by
      unfold aging
      rw [if_pos (by decide)]
      rfl
    simp [Scheduler.updatePriority, MLFQ.Apply, openKernel, ha]
  refine ⟨rfl, ?_, ?_, Run_gate_open _ _ _ _ (by decide), hup, ?_, ?_⟩
  · unfold Scheduler.ReadyToRun
    rw [if_neg (by decide)]
  · unfold Scheduler.FindNextToRun
    rw [if_neg (by decide)]
  · intro h
    rw [h] at hup
    have h2 : openKernel.scheduler.readyList.L2 = [waitingThread] := rfl
    rw [h2] at hup
    have h3 := congrArg (fun l => l.map Thread.priority) hup
    revert h3
    decide
  · rw [shouldPreempt_level3 openKernel (by decide)]
    have h2 : openKernel.scheduler.readyList.L2 = [waitingThread] := rfl
    simp [h2]

theorem aging_ID (now : Int) (t : Thread) : (aging now t).ID = t.ID := by
  unfold aging
  split_ifs <;> rfl

theorem map_ID_map_aging (now : Int) (l : List Thread) :
    (l.map (aging now)).map Thread.ID = l.map Thread.ID := by
  rw [List.map_map]
  exact List.map_congr_left (fun t _ => aging_ID now t)

/-- C16: `updatePriority` leaves the sequence of thread IDs of L1, of L2 and
of L3 as it was, whatever the boosts do to the priorities; a boosted thread
sits in the tier of its new priority only once it has been passed to `Append`
again. -/
theorem updatePriority_keeps_positions (k : Kernel) :
    (Scheduler.updatePriority k).scheduler.readyList.L1.map Thread.ID
      = k.scheduler.readyList.L1.map Thread.ID ∧
    (Scheduler.updatePriority k).scheduler.readyList.L2.map Thread.ID
      = k.scheduler.readyList.L2.map Thread.ID ∧
    (Scheduler.updatePriority k).scheduler.readyList.L3.map Thread.ID
      = k.scheduler.readyList.L3.map Thread.ID ∧
    (∀ (t : Thread) (q : MLFQ) (tick : Int),
      (100 ≤ (aging k.totalTicks t).priority →
        aging k.totalTicks t ∈ (q.Append tick (aging k.totalTicks t)).L1) ∧
      (50 ≤ (aging k.totalTicks t).priority → (aging k.totalTicks t).priority < 100 →
        aging k.totalTicks t ∈ (q.Append tick (aging k.totalTicks t)).L2)) ∧
    (Scheduler.updatePriority openKernel).scheduler.readyList.L2.map Thread.getLevel = [1] := by
  refine ⟨map_ID_map_aging _ _, map_ID_map_aging _ _, map_ID_map_aging _ _, ?_, ?_⟩
  · intro t q tick
    refine ⟨fun h => ?_, fun h1 h2 => ?_⟩
    · rw [Append_L1_band tick _ q h]
      exact (mem_Insert _ _ _ _).mpr (Or.inl rfl)
    · rw [Append_L2_band tick _ q h1 h2]
      exact (mem_Insert _ _ _ _).mpr (Or.inl rfl)
  · have ha : aging 2000 waitingThread
        = { waitingThread with priority := 105, beReadyTime := 2000 } := by
      unfold aging
      rw [if_pos (by decide)]
      rfl
    have hl : Thread.getLevel { waitingThread with priority := 105, beReadyTime := 2000 } = 1 := by
      decide
    simp [Scheduler.updatePriority, MLFQ.Apply, openKernel, ha, hl]

/-! ## C17: the order of L2 over scheduler calls -/

theorem L2_sorted_Append_any (tick : Int) (t : Thread) (q : MLFQ)
    (hid : ∀ u ∈ q.L2, u.ID ≠ t.ID) (hs : q.L2.Pairwise aheadInL2) :
    (q.Append tick t).L2.Pairwise aheadInL2 := by
  by_cases h100 : 100 ≤ t.priority
  · rw [Append_L1_band tick t q h100]; exact hs
  · by_cases h50 : 50 ≤ t.priority
    · exact L2_sorted_Append tick t q h50 (by omega) hid hs
    · rw [Append_L3_band tick t q (by omega)]; exact hs

theorem step_readyToRun (k : Kernel) (tick : Int) (t : Thread)
    (hgate : k.interruptLevel = IntStatus.IntOff) :
    (k.step tick (SchedCall.readyToRun t)).interruptLevel = IntStatus.IntOff ∧
    (k.step tick (SchedCall.readyToRun t)).scheduler.readyList
      = k.scheduler.readyList.Append tick (t.setStatus ThreadStatus.READY) := by
  have hg : ({ k with totalTicks := tick } : Kernel).interruptLevel = IntStatus.IntOff := hgate
  simp only [Kernel.step, Scheduler.ReadyToRun, if_pos hg, Outcome.kernel]
  exact ⟨hgate, trivial⟩

theorem step_findNextToRun (k : Kernel) (tick : Int)
    (hgate : k.interruptLevel = IntStatus.IntOff) :
    (k.step tick SchedCall.findNextToRun).interruptLevel = IntStatus.IntOff ∧
    (k.step tick SchedCall.findNextToRun).scheduler.readyList.L2.Sublist
      k.scheduler.readyList.L2 := by
  have hg : ({ k with totalTicks := tick } : Kernel).interruptLevel = IntStatus.IntOff := hgate
  simp only [Kernel.step, Scheduler.FindNextToRun, if_pos hg]
  cases he : k.scheduler.readyList.IsEmpty
  · obtain ⟨t, q2, hrf, _, _, _, hs2, _⟩ := RemoveFront_nonempty k.scheduler.readyList he
    simp only [Bool.false_eq_true, if_false, Outcome.kernel, hrf]
    exact ⟨hgate, hs2⟩
  · simp only [if_true, Outcome.kernel]
    exact ⟨hgate, List.Sublist.refl _⟩

theorem L2_sorted_runCalls (calls : List (Int × SchedCall)) : ∀ k : Kernel,
    k.interruptLevel = IntStatus.IntOff → k.scheduler.readyList.L2.Pairwise aheadInL2 →
    ReadyCalls k calls →
    (k.runCalls calls).interruptLevel = IntStatus.IntOff ∧
    (k.runCalls calls).scheduler.readyList.L2.Pairwise aheadInL2 := by
  induction calls with
  | nil => intro k hg hs _; exact ⟨hg, hs⟩
  | cons c cs ih =>
    intro k hg hs hv
    obtain ⟨tick, call⟩ := c
    cases call with
    | readyToRun t =>
      obtain ⟨hid, hv⟩ := hv
      obtain ⟨hg2, hq⟩ := step_readyToRun k tick t hg
      refine ih _ hg2 ?_ hv
      rw [hq]
      exact L2_sorted_Append_any tick _ _ hid hs
    | findNextToRun =>
      obtain ⟨hg2, hsub⟩ := step_findNextToRun k tick hg
      exact ih _ hg2 (hs.sublist hsub) hv
    | updatePriority => exact absurd hv (by simp [ReadyCalls])

/-- C17 fails at a concrete input: after `ReadyToRun` of thread 1 (priority
60) at tick 0, `ReadyToRun` of thread 2 (priority 65) at tick 1000 and
`updatePriority` at tick 1600, thread 1 has been boosted in place to 70
behind thread 2: L2 is not in descending priority order and `FindNextToRun`
returns thread 2, of priority 65. -/
theorem L2_order_broken_by_aging :
    ((Kernel.boot firstThread).runCalls agingCalls).scheduler.readyList
      = { L1 := [], L2 := [lateThread, { modestThread with priority := 70, beReadyTime := 1600 }],
          L3 := [] } ∧
    ¬ ((Kernel.boot firstThread).runCalls agingCalls).scheduler.readyList.L2.Pairwise aheadInL2 ∧
    (Scheduler.FindNextToRun ((Kernel.boot firstThread).runCalls agingCalls)).value
      = some (some lateThread) ∧
    lateThread.priority = 65 := by
  have h1 : (modestThread.setStatus ThreadStatus.READY) = modestThread := rfl
  have h2 : (lateThread.setStatus ThreadStatus.READY) = lateThread := rfl
  have hp1 : modestThread.priority = 60 := rfl
  have hp2 : lateThread.priority = 65 := rfl
  have hc : cmpPriority lateThread modestThread = -5 := by decide
  have ha1 : aging 1600 modestThread
      = { modestThread with priority := 70, beReadyTime := 1600 } := by
    unfold aging
    rw [if_pos (by decide)]
    rfl
  have ha2 : aging 1600 lateThread = lateThread := by
    unfold aging
    rw [if_neg (by decide)]
  have hq : ((Kernel.boot firstThread).runCalls agingCalls).scheduler.readyList
      = { L1 := [], L2 := [lateThread, { modestThread with priority := 70, beReadyTime := 1600 }],
          L3 := [] } := by
    simp [agingCalls, Kernel.runCalls, Kernel.step, Kernel.boot, Scheduler.ReadyToRun,
      Outcome.kernel, Scheduler.updatePriority, MLFQ.Apply, MLFQ.Append, MLFQ.new,
      SortedList.Insert, h1, h2, hp1, hp2, hc, ha1, ha2]
  have hg : ((Kernel.boot firstThread).runCalls agingCalls).interruptLevel = IntStatus.IntOff := by
    simp [agingCalls, Kernel.runCalls, Kernel.step, Kernel.boot, Scheduler.ReadyToRun,
      Outcome.kernel, Scheduler.updatePriority]
  refine ⟨hq, ?_, ?_, rfl⟩
  · rw [hq]
    intro hpw
    have := List.rel_of_pairwise_cons hpw (List.mem_singleton_self _)
    revert this
    unfold aheadInL2
    decide
  · unfold Scheduler.FindNextToRun
    rw [if_pos hg, hq]
    simp [MLFQ.IsEmpty, MLFQ.RemoveFront, List.RemoveFront, Outcome.value]

/-- C17 as amended: in every state reached from the empty queue by
`ReadyToRun` and `FindNextToRun` calls with the gate held, at any ticks, on
threads whose IDs differ from those resident in L2, L2 is ordered by
descending priority, ties by ascending ID; so `FindNextToRun` with L1 empty
and L2 not empty returns a thread of L2 whose priority is maximal in L2. -/
theorem L2_sorted_without_aging (main : Thread) (calls : List (Int × SchedCall))
    (hv : ReadyCalls (Kernel.boot main) calls) :
    ((Kernel.boot main).runCalls calls).scheduler.readyList.L2.Pairwise aheadInL2 ∧
    (((Kernel.boot main).runCalls calls).scheduler.readyList.L1 = [] →
      ((Kernel.boot main).runCalls calls).scheduler.readyList.L2 ≠ [] →
      ∃ t, (Scheduler.FindNextToRun ((Kernel.boot main).runCalls calls)).value = some (some t) ∧
        t ∈ ((Kernel.boot main).runCalls calls).scheduler.readyList.L2 ∧
        ∀ u ∈ ((Kernel.boot main).runCalls calls).scheduler.readyList.L2,
          u.priority ≤ t.priority) := by
  obtain ⟨hg, hs⟩ := L2_sorted_runCalls calls (Kernel.boot main) rfl List.Pairwise.nil hv
  refine ⟨hs, fun h1 h2 => ?_⟩
  rcases hq : ((Kernel.boot main).runCalls calls).scheduler.readyList.L2 with _ | ⟨e, rest⟩
  · exact absurd hq h2
  · rw [hq] at hs
    refine ⟨e, ?_, List.mem_cons_self _ _, ?_⟩
    · have hne : ((Kernel.boot main).runCalls calls).scheduler.readyList.IsEmpty = false := by
        cases he : ((Kernel.boot main).runCalls calls).scheduler.readyList.IsEmpty
        · rfl
        · exact absurd ((IsEmpty_iff _).mp he).2.1 h2
      unfold Scheduler.FindNextToRun
      rw [if_pos hg, hne, RemoveFront_cons_L2 _ e rest h1 hq]
      simp [Outcome.value]
    · intro u hu
      rcases List.mem_cons.mp hu with rfl | hu
      · exact le_refl _
      · have := List.rel_of_pairwise_cons hs hu
        unfold aheadInL2 at this
        omega

/-- C17 as amended, at a concrete run: threads 1 and 2 are made ready and no
aging happens. -/
theorem L2_sorted_without_aging_witness :
    ((Kernel.boot firstThread).runCalls
      [(0, SchedCall.readyToRun modestThread), (1000, SchedCall.readyToRun lateThread)]
      ).scheduler.readyList.L2.Pairwise aheadInL2 :=
  (L2_sorted_without_aging firstThread
    [(0, SchedCall.readyToRun modestThread), (1000, SchedCall.readyToRun lateThread)]
    (by
      have h1 : (modestThread.setStatus ThreadStatus.READY) = modestThread := rfl
      have hp1 : modestThread.priority = 60 := rfl
      have hi1 : modestThread.ID = 1 := rfl
      have hi2 : lateThread.ID = 2 := rfl
      simp [ReadyCalls, Kernel.step, Kernel.boot, Scheduler.ReadyToRun, Outcome.kernel,
        MLFQ.Append, MLFQ.new, SortedList.Insert, h1, hp1, hi1, hi2])).1

/-! ## C18: consumer scaling -/

/-- C18 fails at a concrete input: with a single consumer and an empty worker
queue (0 items, below the low threshold 40) one pass of `process` keeps the
single consumer. -/
theorem process_keeps_last_consumer :
    (0 : Int) < loneController.low_threshold ∧
    loneController.consumers.length = 1 ∧
    (ConsumerController.process 1 0 loneController).consumers.length = 1 := by
  refine ⟨by decide, rfl, ?_⟩
  unfold ConsumerController.process
  simp only
  rw [if_pos (by decide), if_neg (by decide)]
  rfl

/-- C18 as amended: in one pass of `process`, when the worker queue holds
fewer items than `low_threshold`, the last consumer is removed if there is
more than one consumer and nothing changes otherwise; when it holds no fewer
than `low_threshold` and more than `high_threshold`, one consumer is added at
the end; in any other case nothing changes.  The thresholds never change. -/
theorem process_scaling (C : Type) (fresh : C) (wsize : Int) (ctr : ConsumerController C) :
    (wsize < ctr.low_threshold → 1 < ctr.consumers.length →
      (ConsumerController.process fresh wsize ctr).consumers = ctr.consumers.dropLast ∧
      (ConsumerController.process fresh wsize ctr).consumers.length
        = ctr.consumers.length - 1) ∧
    (wsize < ctr.low_threshold → ctr.consumers.length ≤ 1 →
      ConsumerController.process fresh wsize ctr = ctr) ∧
    (¬ wsize < ctr.low_threshold → wsize > ctr.high_threshold →
      (ConsumerController.process fresh wsize ctr).consumers = ctr.consumers ++ [fresh] ∧
      (ConsumerController.process fresh wsize ctr).consumers.length
        = ctr.consumers.length + 1) ∧
    (¬ wsize < ctr.low_threshold → ¬ wsize > ctr.high_threshold →
      ConsumerController.process fresh wsize ctr = ctr) ∧
    (ConsumerController.process fresh wsize ctr).low_threshold = ctr.low_threshold ∧
    (ConsumerController.process fresh wsize ctr).high_threshold = ctr.high_threshold := by
  refine ⟨?_, ?_, ?_, ?_, ?_, ?_⟩
  · intro h1 h2
    have h3 : ((ctr.consumers.length : Int) > 1) := by omega
    unfold ConsumerController.process
    simp only
    rw [if_pos h1, if_pos h3]
    exact ⟨rfl, List.length_dropLast _⟩
  · intro h1 h2
    have h3 : ¬ ((ctr.consumers.length : Int) > 1) := by omega
    unfold ConsumerController.process
    simp only
    rw [if_pos h1, if_neg h3]
  · intro h1 h2
    unfold ConsumerController.process
    simp only
    rw [if_neg h1, if_pos h2]
    exact ⟨rfl, by simp⟩
  · intro h1 h2
    unfold ConsumerController.process
    simp only
    rw [if_neg h1, if_neg h2]
  · unfold ConsumerController.process
    simp only
    split_ifs <;> rfl
  · unfold ConsumerController.process
    simp only
    split_ifs <;> rfl

/-- C18 as amended, at a concrete pass: three consumers and 10 items, below
the low threshold; the last consumer goes. -/
theorem process_scaling_witness :
    (ConsumerController.process 9 10
      { loneController with consumers := [0, 1, 2] }).consumers = [0, 1] :=
  ((process_scaling Nat 9 10 { loneController with consumers := [0, 1, 2] }).1
    (by decide) (by decide)).1

/-! ## C19: L1 with integer remaining times -/

theorem truncToInt_intCast (z : Int) (h1 : -(2 : Int) ^ 31 ≤ z) (h2 : z < (2 : Int) ^ 31) :
    truncToInt (z : ℚ) = z := by
  rcases lt_or_le z 0 with h | h
  · rw [truncToInt_of_neg _ (by exact_mod_cast h) (by rw [Int.ceil_intCast]; exact h1),
      Int.ceil_intCast]
  · rw [truncToInt_of_nonneg _ (by exact_mod_cast h) (by rw [Int.floor_intCast]; exact h2),
      Int.floor_intCast]

theorem getRemainTime_not_running (tick : Int) (t : Thread)
    (h : t.status ≠ ThreadStatus.RUNNING) : getRemainTime tick t = t.remaining := by
  unfold getRemainTime Thread.remaining
  rw [if_neg h]

theorem cmpRemainTime_integerTimed (tick : Int) (a b : Thread) (ha : a.integerTimed)
    (hb : b.integerTimed) (hr : diffFitsInt a b) :
    cmpRemainTime tick a b =
      if a.remaining = b.remaining then a.ID - b.ID
      else ⌊a.remaining⌋ - ⌊b.remaining⌋ := by
  obtain ⟨hsa, m, hm⟩ := ha
  obtain ⟨hsb, n, hn⟩ := hb
  unfold cmpRemainTime
  simp only [getRemainTime_not_running tick a hsa, getRemainTime_not_running tick b hsb]
  split_ifs with h
  · rfl
  · unfold diffFitsInt at hr
    rw [hm, hn] at hr ⊢
    have hc : ((m : ℚ) - (n : ℚ)) = ((m - n : Int) : ℚ) := by push_cast; ring
    rw [hc] at hr ⊢
    have h1 : -(2 : Int) ^ 31 ≤ m - n := by exact_mod_cast hr.1
    have h2 : m - n < (2 : Int) ^ 31 := by exact_mod_cast hr.2
    rw [toDouble_intCast_small (m - n) (by omega) (by omega), truncToInt_intCast _ h1 h2]
    simp

theorem cmpRemainTime_neg_iff (tick : Int) (a b : Thread) (ha : a.integerTimed)
    (hb : b.integerTimed) (hr : diffFitsInt a b) :
    cmpRemainTime tick a b < 0 ↔ aheadInL1 a b := by
  rw [cmpRemainTime_integerTimed tick a b ha hb hr]
  obtain ⟨_, m, hm⟩ := ha
  obtain ⟨_, n, hn⟩ := hb
  unfold aheadInL1
  rw [hm, hn]
  simp only [Int.floor_intCast, Int.cast_inj, Int.cast_lt]
  split_ifs with h <;> omega

theorem cmpRemainTime_eq_zero_iff (tick : Int) (a b : Thread) (ha : a.integerTimed)
    (hb : b.integerTimed) (hr : diffFitsInt a b) :
    cmpRemainTime tick a b = 0 ↔ a.remaining = b.remaining ∧ a.ID = b.ID := by
  rw [cmpRemainTime_integerTimed tick a b ha hb hr]
  obtain ⟨_, m, hm⟩ := ha
  obtain ⟨_, n, hn⟩ := hb
  rw [hm, hn]
  simp only [Int.floor_intCast, Int.cast_inj]
  split_ifs with h <;> omega

theorem aheadInL1_trans (a b c : Thread) (h1 : aheadInL1 a b) (h2 : aheadInL1 b c) :
    aheadInL1 a c := by
  unfold aheadInL1 at *
  rcases h1 with h1 | ⟨h1, h1i⟩ <;> rcases h2 with h2 | ⟨h2, h2i⟩
  · exact Or.inl (lt_trans h1 h2)
  · exact Or.inl (h2 ▸ h1)
  · exact Or.inl (h1 ▸ h2)
  · exact Or.inr ⟨h1.trans h2, lt_trans h1i h2i⟩

theorem aheadInL1_asymm (a b : Thread) (h1 : aheadInL1 a b) (h2 : aheadInL1 b a) : False := by
  unfold aheadInL1 at *
  rcases h1 with h1 | ⟨h1, h1i⟩ <;> rcases h2 with h2 | ⟨h2, h2i⟩
  · exact lt_asymm h1 h2
  · rw [h2] at h1; exact lt_irrefl _ h1
  · rw [h1] at h2; exact lt_irrefl _ h2
  · omega

theorem aheadInL1_total (a b : Thread) (hid : a.ID ≠ b.ID) (h : ¬ aheadInL1 a b) :
    aheadInL1 b a := by
  unfold aheadInL1 at *
  rcases lt_trichotomy a.remaining b.remaining with hlt | heq | hgt
  · exact absurd (Or.inl hlt) h
  · rcases lt_trichotomy a.ID b.ID with h1 | h1 | h1
    · exact absurd (Or.inr ⟨heq, h1⟩) h
    · exact absurd h1 hid
    · exact Or.inr ⟨heq.symm, h1⟩
  · exact Or.inl hgt

theorem L1_inv_Append (tick : Int) (t : Thread) (q : MLFQ)
    (hall : ∀ u ∈ q.L1, u.integerTimed) (hs : q.L1.Pairwise aheadInL1)
    (hv : 100 ≤ t.priority → t.integerTimed ∧ ∀ u ∈ q.L1, u.ID ≠ t.ID ∧ diffFitsInt t u) :
    (∀ u ∈ (q.Append tick t).L1, u.integerTimed) ∧ (q.Append tick t).L1.Pairwise aheadInL1 := by
  by_cases h100 : 100 ≤ t.priority
  · obtain ⟨ht, hid⟩ := hv h100
    rw [Append_L1_band tick t q h100]
    have hmem : ∀ u ∈ SortedList.Insert (cmpRemainTime tick) t q.L1, u.integerTimed := by
      intro u hu
      rcases (mem_Insert _ _ _ _).mp hu with rfl | hu
      · exact ht
      · exact hall u hu
    refine ⟨hmem, ?_⟩
    clear hv
    have hgen : ∀ l : List Thread, (∀ u ∈ l, u.integerTimed) → l.Pairwise aheadInL1 →
        (∀ u ∈ l, u.ID ≠ t.ID ∧ diffFitsInt t u) →
        (SortedList.Insert (cmpRemainTime tick) t l).Pairwise aheadInL1 := by
      intro l
      induction l with
      | nil => intro _ _ _; simp [SortedList.Insert]
      | cons e rest ih =>
        intro hl hp hd
        rw [List.pairwise_cons] at hp
        have he : e.integerTimed := hl e (List.mem_cons_self _ _)
        have hre : diffFitsInt t e := (hd e (List.mem_cons_self _ _)).2
        unfold SortedList.Insert
        split_ifs with hlt
        · have hte : aheadInL1 t e := (cmpRemainTime_neg_iff tick t e ht he hre).mp hlt
          refine List.pairwise_cons.mpr ⟨?_, List.pairwise_cons.mpr hp⟩
          intro x hx
          rcases List.mem_cons.mp hx with rfl | hx
          · exact hte
          · exact aheadInL1_trans _ _ _ hte (hp.1 x hx)
        · have het : aheadInL1 e t :=
            aheadInL1_total t e (fun h => (hd e (List.mem_cons_self _ _)).1 h.symm)
              (fun h => hlt ((cmpRemainTime_neg_iff tick t e ht he hre).mpr h))
          refine List.pairwise_cons.mpr ⟨?_, ih (fun u hu => hl u (List.mem_cons_of_mem _ hu))
            hp.2 (fun u hu => hd u (List.mem_cons_of_mem _ hu))⟩
          intro x hx
          rcases (mem_Insert _ _ _ _).mp hx with rfl | hx
          · exact het
          · exact hp.1 x hx
    exact hgen q.L1 hall hs hid
  · by_cases h50 : 50 ≤ t.priority
    · rw [Append_L2_band tick t q h50 (by omega)]; exact ⟨hall, hs⟩
    · rw [Append_L3_band tick t q (by omega)]; exact ⟨hall, hs⟩

theorem RemoveFront_L1_sublist (q : MLFQ) : q.RemoveFront.2.L1.Sublist q.L1 := by
  cases he : q.IsEmpty
  · obtain ⟨t, q2, hrf, _, _, hs1, _, _⟩ := RemoveFront_nonempty q he
    rw [hrf]; exact hs1
  · obtain ⟨h1, h2, h3⟩ := (IsEmpty_iff q).mp he
    rw [RemoveFront_nil q h1 h2 h3]

theorem L1_inv_run (ops : List Op) : ∀ q : MLFQ, (∀ u ∈ q.L1, u.integerTimed) →
    q.L1.Pairwise aheadInL1 → L1Calls q ops →
    (∀ u ∈ (q.run ops).L1, u.integerTimed) ∧ (q.run ops).L1.Pairwise aheadInL1 := by
  induction ops with
  | nil => intro q h1 h2 _; exact ⟨h1, h2⟩
  | cons op ops ih =>
    intro q h1 h2 hv
    cases op with
    | append tick t =>
      obtain ⟨hv1, hv2⟩ := hv
      obtain ⟨h3, h4⟩ := L1_inv_Append tick t q h1 h2 hv1
      exact ih _ h3 h4 hv2
    | removeFront =>
      have hsub := RemoveFront_L1_sublist q
      exact ih _ (fun u hu => h1 u (hsub.subset hu)) (h2.sublist hsub) hv

theorem toDouble_pow54 : toDouble 18014398509481984 = 18014398509481984 := by
  have hl : Int.log 2 (18014398509481984 : ℚ) = 54 := by
    have h := Int.log_natCast (R := ℚ) 2 18014398509481984
    simp only [Nat.cast_ofNat] at h
    rw [h]
    have : Nat.log 2 18014398509481984 = 54 :=
      Nat.log_eq_of_pow_le_of_lt_pow (by norm_num) (by norm_num)
    rw [this]; rfl
  rw [toDouble_of_pos _ (by norm_num), hl]
  have h1 : max (54 : Int) (-1022) - 52 = 2 := by decide
  rw [h1]
  have h2 : (18014398509481984 : ℚ) / 2 ^ (2 : Int) = ((4503599627370496 : Int) : ℚ) := by
    norm_num
  rw [h2, roundHalfEven_intCast]
  have h3 : ((4503599627370496 : Int) : ℚ) * 2 ^ (2 : Int) = 18014398509481984 := by norm_num
  rw [h3]
  exact min_eq_left (two_pow_le_double_top _ (by norm_num))

/-- C19 fails at a concrete input: thread 2 has the exact remaining time
`2 ^ 54 - 1` and thread 1 has `2 ^ 54`, both integers, one apart, with
distinct IDs.  In `double` the remaining time of thread 2 rounds to `2 ^ 54`,
so `cmpRemainTime` sees equal times and orders by ID: thread 1 is put in
front of thread 2, whose remaining time is strictly smaller. -/
theorem L1_order_lost_in_double :
    hugeUsed.apxBurstTime - hugeUsed.CPUBurstTime = ((18014398509481983 : Int) : ℚ) ∧
    hugeFresh.apxBurstTime - hugeFresh.CPUBurstTime = ((18014398509481984 : Int) : ℚ) ∧
    hugeUsed.ID ≠ hugeFresh.ID ∧
    hugeUsed.status = ThreadStatus.READY ∧ hugeFresh.status = ThreadStatus.READY ∧
    getRemainTime 0 hugeUsed = getRemainTime 0 hugeFresh ∧
    cmpRemainTime 0 hugeFresh hugeUsed = -1 ∧
    (MLFQ.new.run [Op.append 0 hugeUsed, Op.append 0 hugeFresh]).L1 = [hugeFresh, hugeUsed] ∧
    MLFQ.returned MLFQ.new
        [Op.append 0 hugeUsed, Op.append 0 hugeFresh, Op.removeFront, Op.removeFront]
      = [some hugeFresh, some hugeUsed] := by
  have hu : hugeUsed.apxBurstTime - hugeUsed.CPUBurstTime = 18014398509481983 := by
    norm_num [hugeUsed, mkThread]
  have hf : hugeFresh.apxBurstTime - hugeFresh.CPUBurstTime = 18014398509481984 := by
    norm_num [hugeFresh, mkThread]
  have h1 : getRemainTime 0 hugeUsed = 18014398509481984 := by
    unfold getRemainTime
    rw [if_neg (by decide), hu, toDouble_pow54_pred]
  have h2 : getRemainTime 0 hugeFresh = 18014398509481984 := by
    unfold getRemainTime
    rw [if_neg (by decide), hf, toDouble_pow54]
  have hc : cmpRemainTime 0 hugeFresh hugeUsed = -1 := by
    unfold cmpRemainTime
    simp only [h1, h2]
    rw [if_pos trivial]
    have hi1 : hugeFresh.ID = 1 := rfl
    have hi2 : hugeUsed.ID = 2 := rfl
    rw [hi1, hi2]
    rfl
  have hp1 : hugeUsed.priority = 100 := rfl
  have hp2 : hugeFresh.priority = 100 := rfl
  have hid : hugeUsed.ID ≠ hugeFresh.ID := by
    have hi1 : hugeFresh.ID = 1 := rfl
    have hi2 : hugeUsed.ID = 2 := rfl
    rw [hi1, hi2]
    decide
  refine ⟨by rw [hu]; norm_num, by rw [hf]; norm_num, hid, rfl, rfl, by rw [h1, h2], hc,
    ?_, ?_⟩
  · simp [MLFQ.run, MLFQ.new, MLFQ.Append, SortedList.Insert, hc, hp1, hp2]
  · have hq : (MLFQ.new.Append 0 hugeUsed).Append 0 hugeFresh
        = { L1 := [hugeFresh, hugeUsed], L2 := [], L3 := [] } := by
      simp [MLFQ.new, MLFQ.Append, SortedList.Insert, hc, hp1, hp2]
    simp only [MLFQ.returned, hq]
    rw [RemoveFront_cons_L1 _ hugeFresh [hugeUsed] rfl]
    simp only
    rw [RemoveFront_cons_L1 _ hugeUsed [] rfl]

/-- C19 as amended: when every appended tier-1 thread is not running, has a
remaining time that is an integer as `getRemainTime` computes it in `double`
(any exact integer difference of magnitude below `2 ^ 53` is one), with
differences to the resident threads that fit a 32-bit `int`, and an ID not
resident in L1, then after any sequence of `Append` and `RemoveFront` calls
on the empty queue L1 is in strictly ascending order of (computed remaining
time, ID).  On such threads, where the differences fit, `cmpRemainTime` is
negative exactly for that order, so it is irreflexive, asymmetric, transitive
and total on distinct IDs, and it is 0 only for equal remaining times and
equal IDs: the cast never turns a difference that is not 0 into 0. -/
theorem L1_sorted_integer_times (ops : List Op) (hv : L1Calls MLFQ.new ops) :
    (MLFQ.new.run ops).L1.Pairwise aheadInL1 ∧
    (∀ u ∈ (MLFQ.new.run ops).L1, u.integerTimed) ∧
    (∀ (t : Thread) (z : Int), t.apxBurstTime - t.CPUBurstTime = (z : ℚ) →
      -(2 : Int) ^ 53 < z → z < (2 : Int) ^ 53 → t.remaining = (z : ℚ)) ∧
    (∀ (tick : Int) (a b c : Thread), a.integerTimed → b.integerTimed → c.integerTimed →
      (diffFitsInt a b → (cmpRemainTime tick a b < 0 ↔ aheadInL1 a b)) ∧
      ¬ cmpRemainTime tick a a < 0 ∧
      (diffFitsInt a b → diffFitsInt b a →
        cmpRemainTime tick a b < 0 → ¬ cmpRemainTime tick b a < 0) ∧
      (diffFitsInt a b → diffFitsInt b c → diffFitsInt a c →
        cmpRemainTime tick a b < 0 → cmpRemainTime tick b c < 0 → cmpRemainTime tick a c < 0) ∧
      (diffFitsInt a b → diffFitsInt b a → a.ID ≠ b.ID →
        cmpRemainTime tick a b < 0 ∨ cmpRemainTime tick b a < 0) ∧
      (diffFitsInt a b → a.remaining ≠ b.remaining → cmpRemainTime tick a b ≠ 0)) := by
  obtain ⟨h1, h2⟩ := L1_inv_run ops MLFQ.new (fun u hu => absurd hu (by simp [MLFQ.new]))
    List.Pairwise.nil hv
  refine ⟨h2, h1, ?_, ?_⟩
  · intro t z hz hlo hhi
    unfold Thread.remaining
    rw [hz, toDouble_intCast_small z hlo hhi]
  intro tick a b c ha hb hc
  refine ⟨fun hab => cmpRemainTime_neg_iff tick a b ha hb hab, ?_, ?_, ?_, ?_, ?_⟩
  · intro h
    have haa : diffFitsInt a a := by
      unfold diffFitsInt
      rw [sub_self]
      constructor <;> norm_num
    have := (cmpRemainTime_neg_iff tick a a ha ha haa).mp h
    exact aheadInL1_asymm a a this this
  · intro hab hba h1 h2
    exact aheadInL1_asymm a b ((cmpRemainTime_neg_iff tick a b ha hb hab).mp h1)
      ((cmpRemainTime_neg_iff tick b a hb ha hba).mp h2)
  · intro hab hbc hac h1 h2
    exact (cmpRemainTime_neg_iff tick a c ha hc hac).mpr
      (aheadInL1_trans a b c ((cmpRemainTime_neg_iff tick a b ha hb hab).mp h1)
        ((cmpRemainTime_neg_iff tick b c hb hc hbc).mp h2))
  · intro hab hba hid
    by_cases h : aheadInL1 a b
    · exact Or.inl ((cmpRemainTime_neg_iff tick a b ha hb hab).mpr h)
    · exact Or.inr ((cmpRemainTime_neg_iff tick b a hb ha hba).mpr (aheadInL1_total a b hid h))
  · intro hab hne h0
    exact hne ((cmpRemainTime_eq_zero_iff tick a b ha hb hab).mp h0).1

theorem sample_remaining :
    slowThread.remaining = ((50 : Int) : ℚ) ∧ quickThread.remaining = ((30 : Int) : ℚ) := by
  constructor
  · unfold Thread.remaining
    have h : slowThread.apxBurstTime - slowThread.CPUBurstTime = ((50 : Int) : ℚ) := by
      norm_num [slowThread, mkThread]
    rw [h, toDouble_intCast_small 50 (by decide) (by decide)]
  · unfold Thread.remaining
    have h : quickThread.apxBurstTime - quickThread.CPUBurstTime = ((30 : Int) : ℚ) := by
      norm_num [quickThread, mkThread]
    rw [h, toDouble_intCast_small 30 (by decide) (by decide)]

theorem sample_L1_calls :
    L1Calls MLFQ.new [Op.append 0 slowThread, Op.append 0 quickThread] := by
  have hs : slowThread.integerTimed := ⟨by decide, 50, sample_remaining.1⟩
  have hq : quickThread.integerTimed := ⟨by decide, 30, sample_remaining.2⟩
  have hL : (MLFQ.new.Append 0 slowThread).L1 = [slowThread] := by
    rw [Append_L1_band 0 slowThread MLFQ.new (by decide)]
    rfl
  refine ⟨fun _ => ⟨hs, fun u hu => absurd hu (by simp [MLFQ.new])⟩, fun _ => ⟨hq, ?_⟩, trivial⟩
  intro u hu
  rw [hL, List.mem_singleton] at hu
  subst hu
  refine ⟨by decide, ?_⟩
  unfold diffFitsInt
  rw [sample_remaining.1, sample_remaining.2]
  constructor <;> norm_num

/-- C19 as amended, at the run of the specification's example: a thread with
priority 120 and burst time 50, then one with priority 110 and burst time 30,
are appended to the empty queue; L1 is sorted, with the second thread in
front. -/
theorem L1_sorted_integer_times_witness :
    (MLFQ.new.run [Op.append 0 slowThread, Op.append 0 quickThread]).L1.Pairwise aheadInL1 :=
  (L1_sorted_integer_times [Op.append 0 slowThread, Op.append 0 quickThread]
    sample_L1_calls).1

/-! ## C20: conservation of the ready population -/

theorem perm_Insert {α : Type} (cmp : α → α → Int) (t : α) (l : List α) :
    List.Perm (SortedList.Insert cmp t l) (t :: l) := by
  obtain ⟨pre, post, h1, h2⟩ := Insert_split cmp t l
  rw [h2, h1]
  exact List.perm_middle

theorem resident_Append (tick : Int) (t : Thread) (q : MLFQ) :
    List.Perm (q.Append tick t).resident (t :: q.resident) := by
  unfold MLFQ.resident
  by_cases h100 : 100 ≤ t.priority
  · rw [Append_L1_band tick t q h100]
    simp only [List.append_assoc]
    exact (perm_Insert _ t q.L1).append_right _
  · by_cases h50 : 50 ≤ t.priority
    · rw [Append_L2_band tick t q h50 (by omega)]
      simp only
      have h := ((perm_Insert cmpPriority t q.L2).append_right q.L3).append_left q.L1
      refine (List.Perm.trans ?_ h).trans ?_
      · simp
      · simp only [List.cons_append, List.append_assoc]
        exact List.perm_middle
    · rw [Append_L3_band tick t q (by omega)]
      simp only
      rw [← List.append_assoc]
      exact List.perm_append_singleton t _

theorem IsEmpty_iff_resident (q : MLFQ) : q.IsEmpty = true ↔ q.resident = [] := by
  rw [IsEmpty_iff]
  unfold MLFQ.resident
  simp [and_assoc]

theorem resident_run_appendCalls (ts : List (Int × Thread)) : ∀ q : MLFQ,
    List.Perm (q.run (appendCalls ts)).resident (ts.map Prod.snd ++ q.resident) := by
  induction ts with
  | nil => intro q; simp [appendCalls, MLFQ.run]
  | cons p ts ih =>
    intro q
    have h1 := ih (q.Append p.1 p.2)
    simp only [appendCalls, List.map_cons, MLFQ.run] at h1 ⊢
    refine h1.trans ?_
    refine ((resident_Append p.1 p.2 q).append_left _).trans ?_
    simp only [List.cons_append]
    exact List.perm_middle

theorem returned_drain (n : Nat) : ∀ q : MLFQ, q.resident.length = n →
    ∃ l, List.Perm l q.resident ∧
      q.returned (List.replicate (n + 1) Op.removeFront) = l.map some ++ [none] := by
  induction n with
  | zero =>
    intro q hq
    have he : q.resident = [] := List.length_eq_zero.mp hq
    obtain ⟨h1, h2, h3⟩ := (IsEmpty_iff q).mp ((IsEmpty_iff_resident q).mpr he)
    refine ⟨[], by rw [he], ?_⟩
    simp [MLFQ.returned, RemoveFront_nil q h1 h2 h3]
  | succ n ih =>
    intro q hq
    have hne : q.IsEmpty = false := by
      cases he : q.IsEmpty
      · rfl
      · rw [(IsEmpty_iff_resident q).mp he] at hq
        simp at hq
    obtain ⟨t, q2, hrf, _, hperm, _, _, _⟩ := RemoveFront_nonempty q hne
    have hlen : q2.resident.length = n := by
      have := hperm.length_eq
      simp only [List.length_cons] at this
      omega
    obtain ⟨l, hl, hret⟩ := ih q2 hlen
    refine ⟨t :: l, (List.Perm.cons t hl).trans hperm.symm, ?_⟩
    rw [List.replicate_succ]
    have hstep : q.returned (Op.removeFront :: List.replicate (n + 1) Op.removeFront)
        = q.RemoveFront.1 :: q.RemoveFront.2.returned (List.replicate (n + 1) Op.removeFront) :=
      rfl
    rw [hstep, hrf, hret]
    rfl

/-- C20: in a queue with no thread resident twice, `Append` of a thread that
is not resident gives the old residents plus that thread, still without
duplicates; `RemoveFront` on a queue that is not empty returns a resident
thread and leaves the old residents minus exactly that thread; `IsEmpty` is
true exactly when no thread is resident; and after `Append` of `n` distinct
threads to the empty queue, `n + 1` `RemoveFront` calls return each of them
once, in some order, and then `none`. -/
theorem ready_population_conserved (q : MLFQ) (hnd : q.resident.Nodup) :
    (∀ (tick : Int) (t : Thread), t ∉ q.resident →
      List.Perm (q.Append tick t).resident (t :: q.resident) ∧
      (q.Append tick t).resident.Nodup) ∧
    (q.IsEmpty = false →
      ∃ t q2, q.RemoveFront = (some t, q2) ∧ t ∈ q.resident ∧
        List.Perm q.resident (t :: q2.resident) ∧ t ∉ q2.resident ∧ q2.resident.Nodup) ∧
    (q.IsEmpty = true ↔ q.resident = []) ∧
    (∀ ts : List (Int × Thread), (ts.map Prod.snd).Nodup →
      ∃ l, List.Perm l (ts.map Prod.snd) ∧ l.Nodup ∧
        MLFQ.new.returned (appendCalls ts ++ List.replicate (ts.length + 1) Op.removeFront)
          = l.map some ++ [none]) := by
  refine ⟨?_, ?_, IsEmpty_iff_resident q, ?_⟩
  · intro tick t ht
    have hp := resident_Append tick t q
    exact ⟨hp, hp.nodup_iff.mpr (List.nodup_cons.mpr ⟨ht, hnd⟩)⟩
  · intro hne
    obtain ⟨t, q2, hrf, hmem, hperm, _, _, _⟩ := RemoveFront_nonempty q hne
    have hnd2 := List.nodup_cons.mp (hperm.nodup_iff.mp hnd)
    exact ⟨t, q2, hrf, hmem, hperm, hnd2.1, hnd2.2⟩
  · intro ts hts
    have hres := resident_run_appendCalls ts MLFQ.new
    have hnil : MLFQ.new.resident = [] := rfl
    rw [hnil, List.append_nil] at hres
    have hlen : (MLFQ.new.run (appendCalls ts)).resident.length = ts.length := by
      rw [hres.length_eq, List.length_map]
    obtain ⟨l, hl, hret⟩ := returned_drain ts.length _ hlen
    refine ⟨l, hl.trans hres, (hl.trans hres).nodup_iff.mpr hts, ?_⟩
    rw [returned_append_calls ts _ MLFQ.new]
    exact hret

/-- C20 at a concrete queue: L2 holds thread 2 and L3 holds thread 3; removing
the front returns thread 2 and leaves thread 3. -/
theorem ready_population_conserved_witness :
    ∃ t q2, MLFQ.RemoveFront { L1 := [], L2 := [urgentThread], L3 := [secondThread] }
        = (some t, q2) ∧
      t ∈ MLFQ.resident { L1 := [], L2 := [urgentThread], L3 := [secondThread] } ∧
      List.Perm (MLFQ.resident { L1 := [], L2 := [urgentThread], L3 := [secondThread] })
        (t :: q2.resident) ∧
      t ∉ q2.resident ∧ q2.resident.Nodup :=
  (ready_population_conserved { L1 := [], L2 := [urgentThread], L3 := [secondThread] }
    (by
      have hne : urgentThread ≠ secondThread := by
        intro h
        have := congrArg Thread.ID h
        revert this
        decide
      simp [MLFQ.resident, hne])).2.1 rfl


end NachOS
